import Mathlib

/-!
Verification of the voice-allocation engine and render path of the
polysynth firmware.

The main embedding follows src/seed/DSP/oscillator/oscillator.cpp:
the registry arrays (btn_held, btn_voice, btn_hold_ts and their MIDI
counterparts), the fixed two-slot voice pool, the allocator operations
OnKeyPressed and OnKeyReleased with voice stealing and restitution, and
the per-block mixing arithmetic of AudioCallback.  The single-oscillator
function generator of src/Function Generator/oscillator.cpp is embedded
separately at the end of the definition section.

Modelling conventions:
* C arrays indexed by int are total functions out of Int; only the
  indices the firmware actually addresses (buttons 0..5, notes 0..127,
  voices 0..1) are real memory, and the initial state reproduces the
  startup contents of the C globals exactly: main initialises btn_voice
  to -1, while midi_voice is left at its zero static initialisation.
* The uint32_t press counter is a Nat reduced modulo 2^32 on increment,
  so the wrap-around of the C type is preserved.
* The unbounded while loop of the restitution pass is embedded with
  explicit fuel kNumVoices + 1; the termination theorem for claim C9
  proves this fuel is always sufficient, so the embedding agrees with
  the unbounded loop.
* Audio samples are embedded as rationals; every value the claims
  mention (sums of plus-or-minus one, the scale 1/(2*numVoices)) is a
  dyadic rational on which single-precision IEEE arithmetic is exact.
* The daisysp Oscillator collaborator is external to the repository; it
  is embedded by its contract: SetFreq, SetAmp and SetPw replace the
  corresponding parameter, Process advances an abstract phase by one
  step and is independent of amplitude, and nothing else touches phase.
-/

set_option autoImplicit false

namespace Synth

/-- Voice-pool capacity, kNumVoices = 2 in the source. -/
def kNumVoices : Nat := 2

/-- Number of hardware buttons, kNumKeys = 6 in the source. -/
def kNumKeys : Nat := 6

/-- Number of MIDI note slots, kNumMidiNotes = 128 in the source. -/
def kNumMidiNotes : Nat := 128

/-- Modulus of the uint32_t global press counter. -/
def UINT32_MOD : Nat := 4294967296

/-- One slot of the voice pool, struct Voice of the source:
active flag, owner-domain flag is_midi, and owner id key_id
(button index 0..5 or MIDI note 0..127, -1 when unbound). -/
structure Voice where
  active : Bool
  is_midi : Bool
  key_id : Int
deriving DecidableEq

/-- Result of the waiting-key scan, struct KeyRef of the source. -/
structure KeyRef where
  is_midi : Bool
  id : Int
  valid : Bool
deriving DecidableEq

/-- The mutable allocation state of the firmware: the voice pool, the
per-button and per-MIDI-note registries, and the global press counter. -/
@[ext] structure SynthState where
  voices : Int → Voice
  btn_held : Int → Bool
  btn_voice : Int → Int
  btn_hold_ts : Int → Nat
  midi_held : Int → Bool
  midi_voice : Int → Int
  midi_hold_ts : Int → Nat
  global_press_counter : Nat

/-- State at the end of startup: voices default-constructed inactive,
held flags false, btn_voice set to -1 by main for the six real buttons,
btn_hold_ts zeroed, and midi_voice left at its zero static
initialisation (main never writes it), midi_hold_ts zero, counter zero. -/
def initState : SynthState where
  voices := fun _ => ⟨false, false, -1⟩
  btn_held := fun _ => false
  btn_voice := fun i => if 0 ≤ i ∧ i < (kNumKeys : Int) then -1 else 0
  btn_hold_ts := fun _ => 0
  midi_held := fun _ => false
  midi_voice := fun _ => 0
  midi_hold_ts := fun _ => 0
  global_press_counter := 0

/-- GetHeld helper of the source. -/
def GetHeld (s : SynthState) (m : Bool) (id : Int) : Bool :=
  if m then s.midi_held id else s.btn_held id

/-- SetHeld helper of the source. -/
def SetHeld (s : SynthState) (m : Bool) (id : Int) (v : Bool) : SynthState :=
  if m then { s with midi_held := Function.update s.midi_held id v }
  else { s with btn_held := Function.update s.btn_held id v }

/-- GetOwnerVoice helper of the source. -/
def GetOwnerVoice (s : SynthState) (m : Bool) (id : Int) : Int :=
  if m then s.midi_voice id else s.btn_voice id

/-- SetOwnerVoice helper of the source. -/
def SetOwnerVoice (s : SynthState) (m : Bool) (id : Int) (vi : Int) : SynthState :=
  if m then { s with midi_voice := Function.update s.midi_voice id vi }
  else { s with btn_voice := Function.update s.btn_voice id vi }

/-- GetTs helper of the source. -/
def GetTs (s : SynthState) (m : Bool) (id : Int) : Nat :=
  if m then s.midi_hold_ts id else s.btn_hold_ts id

/-- SetTs helper of the source. -/
def SetTs (s : SynthState) (m : Bool) (id : Int) (ts : Nat) : SynthState :=
  if m then { s with midi_hold_ts := Function.update s.midi_hold_ts id ts }
  else { s with btn_hold_ts := Function.update s.btn_hold_ts id ts }

/-- The index sequence 0, 1 scanned by every for loop over the pool. -/
def voiceIdxs : List Int := (List.range kNumVoices).map (fun n => (n : Int))

/-- Loop body of FindFreeVoice: first index whose voice is inactive. -/
def FindFreeGo (s : SynthState) : List Int → Int
  | [] => -1
  | v :: rest => if (s.voices v).active = false then v else FindFreeGo s rest

/-- FindFreeVoice of the source: lowest-index inactive voice, else -1. -/
def FindFreeVoice (s : SynthState) : Int :=
  FindFreeGo s voiceIdxs

/-- Timestamp of the owner of voice slot v, as read by the stealing scan. -/
def tsOf (s : SynthState) (v : Int) : Nat :=
  GetTs s (s.voices v).is_midi (s.voices v).key_id

/-- Loop body of FindOldestActiveVoice, carrying oldest_vi and oldest_ts. -/
def FindOldestGo (s : SynthState) : List Int → Int → Nat → Int
  | [], vi, _ => vi
  | v :: rest, vi, ts =>
    if (s.voices v).active = false then FindOldestGo s rest vi ts
    else
      if vi < 0 ∨ tsOf s v < ts then FindOldestGo s rest v (tsOf s v)
      else FindOldestGo s rest vi ts

/-- FindOldestActiveVoice of the source: among active voices, the one
whose owner has the smallest hold timestamp, first such index winning. -/
def FindOldestActiveVoice (s : SynthState) : Int :=
  FindOldestGo s voiceIdxs (-1) 0

/-- Scan order of FindOldestWaitingKey: buttons 0..5 then notes 0..127. -/
def allKeys : List (Bool × Int) :=
  ((List.range kNumKeys).map fun b => (false, (b : Int)))
    ++ ((List.range kNumMidiNotes).map fun n => (true, (n : Int)))

/-- Candidate test of the waiting scan: held and unassigned. -/
def waitCand (s : SynthState) (m : Bool) (id : Int) : Bool :=
  GetHeld s m id && decide (GetOwnerVoice s m id < 0)

/-- Generic loop body of FindOldestWaitingKey over a key list, carrying
the best KeyRef and its timestamp; c is the candidate test and ts the
timestamp read. -/
def scanGo (c : Bool → Int → Bool) (ts : Bool → Int → Nat) :
    List (Bool × Int) → KeyRef → Nat → KeyRef
  | [], best, _ => best
  | (m, i) :: rest, best, bts =>
    if c m i then
      if best.valid = false ∨ ts m i < bts then scanGo c ts rest ⟨m, i, true⟩ (ts m i)
      else scanGo c ts rest best bts
    else scanGo c ts rest best bts

/-- FindOldestWaitingKey of the source: among held-but-unassigned keys of
both domains, the one with the oldest timestamp. -/
def FindOldestWaitingKey (s : SynthState) : KeyRef :=
  scanGo (waitCand s) (GetTs s) allKeys ⟨false, -1, false⟩ 0

/-- AssignVoiceToKey of the source: set the voice slot fields and the
owner back-pointer. -/
def AssignVoiceToKey (s : SynthState) (vi : Int) (m : Bool) (kid : Int) : SynthState :=
  let s1 := { s with voices := Function.update s.voices vi ⟨true, m, kid⟩ }
  SetOwnerVoice s1 m kid vi

/-- ReleaseVoice of the source: no-op on an inactive slot, otherwise
clear the matching owner back-pointer and deactivate the slot. -/
def ReleaseVoice (s : SynthState) (vi : Int) : SynthState :=
  if (s.voices vi).active = false then s
  else
    let m := (s.voices vi).is_midi
    let kid := (s.voices vi).key_id
    let s1 := if 0 ≤ kid then
        (if GetOwnerVoice s m kid = vi then SetOwnerVoice s m kid (-1) else s)
      else s
    { s1 with voices := Function.update s1.voices vi ⟨false, m, -1⟩ }

/-- OnKeyPressed of the source: MIDI range guard, mark held, stamp with
the incremented uint32 counter, then bind a free voice or steal the
oldest active one. -/
def OnKeyPressed (s : SynthState) (m : Bool) (id : Int) : SynthState :=
  if m && (decide (id < 0) || decide ((kNumMidiNotes : Int) ≤ id)) then s
  else
    let s1 := SetHeld s m id true
    let s2 := { s1 with global_press_counter := (s1.global_press_counter + 1) % UINT32_MOD }
    let s3 := SetTs s2 m id s2.global_press_counter
    let fv := FindFreeVoice s3
    if 0 ≤ fv then AssignVoiceToKey s3 fv m id
    else
      let sv := FindOldestActiveVoice s3
      if 0 ≤ sv then
        AssignVoiceToKey
          (SetOwnerVoice s3 (s3.voices sv).is_midi (s3.voices sv).key_id (-1)) sv m id
      else s3

/-- Continuation test of the restitution while loop: a waiting key and a
free voice both exist. -/
def condB (s : SynthState) : Bool :=
  (FindOldestWaitingKey s).valid && decide (0 ≤ FindFreeVoice s)

/-- One iteration of the restitution loop: bind the current free voice
to the current oldest waiting key, both recomputed from the state. -/
def restStep (s : SynthState) : SynthState :=
  AssignVoiceToKey s (FindFreeVoice s)
    (FindOldestWaitingKey s).is_midi (FindOldestWaitingKey s).id

/-- The restitution while loop with explicit fuel. -/
def RestLoop : SynthState → Nat → SynthState
  | s, 0 => s
  | s, n + 1 => if condB s then RestLoop (restStep s) n else s

/-- The restitution pass of OnKeyReleased; fuel kNumVoices + 1 is proved
sufficient by the termination theorem. -/
def Restitute (s : SynthState) : SynthState :=
  RestLoop s (kNumVoices + 1)

/-- OnKeyReleased of the source: MIDI range guard, clear held, release
the owned voice if any, then run restitution. -/
def OnKeyReleased (s : SynthState) (m : Bool) (id : Int) : SynthState :=
  if m && (decide (id < 0) || decide ((kNumMidiNotes : Int) ≤ id)) then s
  else
    let s1 := SetHeld s m id false
    let ov := GetOwnerVoice s1 m id
    let s2 := if 0 ≤ ov then ReleaseVoice s1 ov else s1
    Restitute s2

/-- Number of inactive slots of the two-voice pool. -/
def freeCount (s : SynthState) : Nat :=
  (if (s.voices 0).active then 0 else 1) + (if (s.voices 1).active then 0 else 1)

/-- n repeated MIDI NoteOn 60 events from startup. -/
def pressN : Nat → SynthState
  | 0 => initState
  | n + 1 => OnKeyPressed (pressN n) true 60

/-- Two MIDI NoteOn 60 events with no NoteOff in between. -/
def dblPress : SynthState :=
  OnKeyPressed (OnKeyPressed initState true 60) true 60

/-- Notes 60 and 62 pressed, filling both voices. -/
def twoHeld : SynthState :=
  OnKeyPressed (OnKeyPressed initState true 60) true 62

/-- Presses 60, 62, 64 (steals the voice of 60), 66 (steals the voice
of 62): the four-press scenario of the restitution claim. -/
def fourPress : SynthState :=
  OnKeyPressed (OnKeyPressed twoHeld true 64) true 66

/-- Release of note 64 in the four-press scenario. -/
def fourPressRel : SynthState :=
  OnKeyReleased fourPress true 64

/-- Release of note 60 after the double press, exhibiting the orphaned
stuck voice. -/
def dblPressRel : SynthState :=
  OnKeyReleased dblPress true 60

/-- A state with note 60 held and waiting and both voices free; the
restitution continue test holds here. -/
def waitState : SynthState :=
  { initState with
      midi_held := Function.update initState.midi_held 60 true,
      midi_voice := Function.update initState.midi_voice 60 (-1) }

/-- The output scale factor of AudioCallback: 1 / (2 * kNumVoices). -/
def mix_scale : ℚ :=
  1 / (2 * (kNumVoices : ℚ))

/-- Accumulation of the per-sample mixing loop: for each voice in order,
mix accumulates the layer-1 sample then the layer-2 sample; p1 and p2
give the sample produced by each oscillator layer of each voice slot. -/
def mixGo (p1 p2 : Int → ℚ) : List Int → ℚ → ℚ
  | [], acc => acc
  | v :: rest, acc => mixGo p1 p2 rest (acc + p1 v + p2 v)

/-- One output sample of AudioCallback: the accumulated mix times
mix_scale. -/
def renderSample (p1 p2 : Int → ℚ) : ℚ :=
  mixGo p1 p2 voiceIdxs 0 * mix_scale

/-- The pair written to the two output channels at sample i. -/
def renderOuts (p1 p2 : Nat → Int → ℚ) (i : Nat) : ℚ × ℚ :=
  (renderSample (p1 i) (p2 i), renderSample (p1 i) (p2 i))

/-- The daisysp oscillator collaborator, embedded by its documented
contract: parameters freq, amp, pw, and an abstract phase position that
advances once per Process call, independently of amplitude; only Init
would reset it, and Init is called once in main before audio starts. -/
structure Osc where
  freq : ℚ
  amp : ℚ
  pw : ℚ
  phase : Nat
deriving DecidableEq

/-- SetFreq of the oscillator contract. -/
def oscSetFreq (o : Osc) (f : ℚ) : Osc := { o with freq := f }

/-- SetAmp of the oscillator contract. -/
def oscSetAmp (o : Osc) (a : ℚ) : Osc := { o with amp := a }

/-- SetPw of the oscillator contract. -/
def oscSetPw (o : Osc) (p : ℚ) : Osc := { o with pw := p }

/-- Process of the oscillator contract: advance phase, keep parameters. -/
def oscProcess (o : Osc) : Osc := { o with phase := o.phase + 1 }

/-- Per-block inputs of AudioCallback: which voices are active, the
frequency of each voice's key, the pot readings, the detune factor and
the block size. -/
structure BlockIn where
  active : Int → Bool
  freqOf : Int → ℚ
  vol1 : ℚ
  vol2 : ℚ
  pw1 : ℚ
  pw2 : ℚ
  detuneFactor : ℚ
  size : Nat

/-- Parameter stage of AudioCallback: an active voice gets frequency,
amplitude and pulse width on layer 1 and the detuned frequency on
layer 2; an inactive voice is hard-zeroed in amplitude on both layers. -/
def paramGo (bi : BlockIn) :
    List Int → (Int → Osc) → (Int → Osc) → (Int → Osc) × (Int → Osc)
  | [], o1, o2 => (o1, o2)
  | v :: rest, o1, o2 =>
    if bi.active v then
      paramGo bi rest
        (Function.update o1 v
          (oscSetPw (oscSetAmp (oscSetFreq (o1 v) (bi.freqOf v)) bi.vol1) bi.pw1))
        (Function.update o2 v
          (oscSetPw (oscSetAmp (oscSetFreq (o2 v) (bi.freqOf v * bi.detuneFactor)) bi.vol2) bi.pw2))
    else
      paramGo bi rest
        (Function.update o1 v (oscSetAmp (o1 v) 0))
        (Function.update o2 v (oscSetAmp (o2 v) 0))

/-- One Process pass over every voice slot of one oscillator layer. -/
def advanceGo : List Int → (Int → Osc) → (Int → Osc)
  | [], o => o
  | v :: rest, o => advanceGo rest (Function.update o v (oscProcess (o v)))

/-- The per-sample loop of AudioCallback: every oscillator of every
voice slot, active or not, is processed on every sample. -/
def sampleLoop : Nat → (Int → Osc) → (Int → Osc) → (Int → Osc) × (Int → Osc)
  | 0, o1, o2 => (o1, o2)
  | n + 1, o1, o2 => sampleLoop n (advanceGo voiceIdxs o1) (advanceGo voiceIdxs o2)

/-- One whole audio block: parameter stage, then size samples. -/
def audioBlockOsc (bi : BlockIn) (o1 o2 : Int → Osc) : (Int → Osc) × (Int → Osc) :=
  sampleLoop bi.size (paramGo bi voiceIdxs o1 o2).1 (paramGo bi voiceIdxs o1 o2).2

/-- A run of consecutive audio blocks; nothing between blocks touches
the oscillators. -/
def runBlocks : List BlockIn → (Int → Osc) → (Int → Osc) → (Int → Osc) × (Int → Osc)
  | [], o1, o2 => (o1, o2)
  | bi :: rest, o1, o2 =>
    runBlocks rest (audioBlockOsc bi o1 o2).1 (audioBlockOsc bi o1 o2).2

/-- Waveforms of the function generator variant. -/
inductive Wave
  | square
  | saw
  | tri
deriving DecidableEq

/-- State of the function generator: the shared waveform selection
currentWaveform, the waveform currently set on the oscillator, and the
edge-detection latch lastButtonState. -/
structure FGState where
  currentWaveform : Int
  waveform : Wave
  lastButtonState : Bool
deriving DecidableEq

/-- The selection-to-waveform table realised by the switch of
UpdateWaveform. -/
def wmap (c : Int) : Wave :=
  if c = 0 then Wave.square else if c = 1 then Wave.saw else Wave.tri

/-- UpdateWaveform of the function generator: advance the selection
modulo 3 and set the matching waveform; the switch has no default case,
so an impossible selection would leave the waveform unchanged. -/
def UpdateWaveform (s : FGState) : FGState :=
  let cw := (s.currentWaveform + 1) % 3
  { s with
      currentWaveform := cw,
      waveform :=
        if cw = 0 then Wave.square
        else if cw = 1 then Wave.saw
        else if cw = 2 then Wave.tri
        else s.waveform }

/-- One iteration of the polling loop of the function generator main:
UpdateWaveform on a rising edge only, then latch the reading. -/
def pollStep (s : FGState) (pressed : Bool) : FGState :=
  let s1 := if pressed && !s.lastButtonState then UpdateWaveform s else s
  { s1 with lastButtonState := pressed }

/-- Function generator state after startup: selection 0, oscillator set
to triangle, latch clear. -/
def initFG : FGState :=
  { currentWaveform := 0, waveform := Wave.tri, lastButtonState := false }

end Synth

namespace Synth

/-! ### Component lemmas for the registry setters -/

@[simp] lemma SetHeld_voices (s : SynthState) (m : Bool) (id : Int) (v : Bool) :
    (SetHeld s m id v).voices = s.voices := by
  cases m <;> simp [SetHeld]

@[simp] lemma SetHeld_btn_voice (s : SynthState) (m : Bool) (id : Int) (v : Bool) :
    (SetHeld s m id v).btn_voice = s.btn_voice := by
  cases m <;> simp [SetHeld]

@[simp] lemma SetHeld_midi_voice (s : SynthState) (m : Bool) (id : Int) (v : Bool) :
    (SetHeld s m id v).midi_voice = s.midi_voice := by
  cases m <;> simp [SetHeld]

@[simp] lemma SetHeld_btn_hold_ts (s : SynthState) (m : Bool) (id : Int) (v : Bool) :
    (SetHeld s m id v).btn_hold_ts = s.btn_hold_ts := by
  cases m <;> simp [SetHeld]

@[simp] lemma SetHeld_midi_hold_ts (s : SynthState) (m : Bool) (id : Int) (v : Bool) :
    (SetHeld s m id v).midi_hold_ts = s.midi_hold_ts := by
  cases m <;> simp [SetHeld]

@[simp] lemma SetHeld_counter (s : SynthState) (m : Bool) (id : Int) (v : Bool) :
    (SetHeld s m id v).global_press_counter = s.global_press_counter := by
  cases m <;> simp [SetHeld]

@[simp] lemma SetTs_voices (s : SynthState) (m : Bool) (id : Int) (t : Nat) :
    (SetTs s m id t).voices = s.voices := by
  cases m <;> simp [SetTs]

@[simp] lemma SetTs_btn_held (s : SynthState) (m : Bool) (id : Int) (t : Nat) :
    (SetTs s m id t).btn_held = s.btn_held := by
  cases m <;> simp [SetTs]

@[simp] lemma SetTs_midi_held (s : SynthState) (m : Bool) (id : Int) (t : Nat) :
    (SetTs s m id t).midi_held = s.midi_held := by
  cases m <;> simp [SetTs]

@[simp] lemma SetTs_btn_voice (s : SynthState) (m : Bool) (id : Int) (t : Nat) :
    (SetTs s m id t).btn_voice = s.btn_voice := by
  cases m <;> simp [SetTs]

@[simp] lemma SetTs_midi_voice (s : SynthState) (m : Bool) (id : Int) (t : Nat) :
    (SetTs s m id t).midi_voice = s.midi_voice := by
  cases m <;> simp [SetTs]

@[simp] lemma SetTs_counter (s : SynthState) (m : Bool) (id : Int) (t : Nat) :
    (SetTs s m id t).global_press_counter = s.global_press_counter := by
  cases m <;> simp [SetTs]

@[simp] lemma SetOwnerVoice_voices (s : SynthState) (m : Bool) (id vi : Int) :
    (SetOwnerVoice s m id vi).voices = s.voices := by
  cases m <;> simp [SetOwnerVoice]

@[simp] lemma SetOwnerVoice_btn_held (s : SynthState) (m : Bool) (id vi : Int) :
    (SetOwnerVoice s m id vi).btn_held = s.btn_held := by
  cases m <;> simp [SetOwnerVoice]

@[simp] lemma SetOwnerVoice_midi_held (s : SynthState) (m : Bool) (id vi : Int) :
    (SetOwnerVoice s m id vi).midi_held = s.midi_held := by
  cases m <;> simp [SetOwnerVoice]

@[simp] lemma SetOwnerVoice_btn_hold_ts (s : SynthState) (m : Bool) (id vi : Int) :
    (SetOwnerVoice s m id vi).btn_hold_ts = s.btn_hold_ts := by
  cases m <;> simp [SetOwnerVoice]

@[simp] lemma SetOwnerVoice_midi_hold_ts (s : SynthState) (m : Bool) (id vi : Int) :
    (SetOwnerVoice s m id vi).midi_hold_ts = s.midi_hold_ts := by
  cases m <;> simp [SetOwnerVoice]

@[simp] lemma SetOwnerVoice_counter (s : SynthState) (m : Bool) (id vi : Int) :
    (SetOwnerVoice s m id vi).global_press_counter = s.global_press_counter := by
  cases m <;> simp [SetOwnerVoice]

/-! ### Get after Set -/

lemma GetHeld_SetHeld_same (s : SynthState) (m : Bool) (id : Int) (v : Bool) :
    GetHeld (SetHeld s m id v) m id = v := by
  cases m <;> simp [GetHeld, SetHeld]

lemma GetHeld_SetHeld_other (s : SynthState) (m m2 : Bool) (id id2 : Int) (v : Bool)
    (h : ¬(m2 = m ∧ id2 = id)) :
    GetHeld (SetHeld s m id v) m2 id2 = GetHeld s m2 id2 := by
  cases m <;> cases m2 <;>
    simp_all [GetHeld, SetHeld, Function.update_noteq]

lemma GetOwnerVoice_SetOwnerVoice_same (s : SynthState) (m : Bool) (id vi : Int) :
    GetOwnerVoice (SetOwnerVoice s m id vi) m id = vi := by
  cases m <;> simp [GetOwnerVoice, SetOwnerVoice]

lemma GetOwnerVoice_SetOwnerVoice_other (s : SynthState) (m m2 : Bool) (id id2 vi : Int)
    (h : ¬(m2 = m ∧ id2 = id)) :
    GetOwnerVoice (SetOwnerVoice s m id vi) m2 id2 = GetOwnerVoice s m2 id2 := by
  cases m <;> cases m2 <;>
    simp_all [GetOwnerVoice, SetOwnerVoice, Function.update_noteq]

lemma GetTs_SetTs_same (s : SynthState) (m : Bool) (id : Int) (t : Nat) :
    GetTs (SetTs s m id t) m id = t := by
  cases m <;> simp [GetTs, SetTs]

lemma GetTs_SetTs_other (s : SynthState) (m m2 : Bool) (id id2 : Int) (t : Nat)
    (h : ¬(m2 = m ∧ id2 = id)) :
    GetTs (SetTs s m id t) m2 id2 = GetTs s m2 id2 := by
  cases m <;> cases m2 <;>
    simp_all [GetTs, SetTs, Function.update_noteq]

/-! ### Components of AssignVoiceToKey and ReleaseVoice -/

@[simp] lemma Assign_btn_held (s : SynthState) (vi : Int) (m : Bool) (kid : Int) :
    (AssignVoiceToKey s vi m kid).btn_held = s.btn_held := by
  simp [AssignVoiceToKey]

@[simp] lemma Assign_midi_held (s : SynthState) (vi : Int) (m : Bool) (kid : Int) :
    (AssignVoiceToKey s vi m kid).midi_held = s.midi_held := by
  simp [AssignVoiceToKey]

@[simp] lemma Assign_btn_hold_ts (s : SynthState) (vi : Int) (m : Bool) (kid : Int) :
    (AssignVoiceToKey s vi m kid).btn_hold_ts = s.btn_hold_ts := by
  simp [AssignVoiceToKey]

@[simp] lemma Assign_midi_hold_ts (s : SynthState) (vi : Int) (m : Bool) (kid : Int) :
    (AssignVoiceToKey s vi m kid).midi_hold_ts = s.midi_hold_ts := by
  simp [AssignVoiceToKey]

@[simp] lemma Assign_counter (s : SynthState) (vi : Int) (m : Bool) (kid : Int) :
    (AssignVoiceToKey s vi m kid).global_press_counter = s.global_press_counter := by
  simp [AssignVoiceToKey]

@[simp] lemma Assign_voices (s : SynthState) (vi : Int) (m : Bool) (kid : Int) :
    (AssignVoiceToKey s vi m kid).voices = Function.update s.voices vi ⟨true, m, kid⟩ := by
  simp [AssignVoiceToKey]

lemma GetOwnerVoice_Assign_same (s : SynthState) (vi : Int) (m : Bool) (kid : Int) :
    GetOwnerVoice (AssignVoiceToKey s vi m kid) m kid = vi := by
  simp [AssignVoiceToKey, GetOwnerVoice_SetOwnerVoice_same]

lemma GetOwnerVoice_Assign_other (s : SynthState) (vi : Int) (m m2 : Bool) (kid id2 : Int)
    (h : ¬(m2 = m ∧ id2 = kid)) :
    GetOwnerVoice (AssignVoiceToKey s vi m kid) m2 id2 = GetOwnerVoice s m2 id2 := by
  unfold AssignVoiceToKey
  rw [GetOwnerVoice_SetOwnerVoice_other _ _ _ _ _ _ h]
  cases m2 <;> simp [GetOwnerVoice]

end Synth

namespace Synth

@[simp] lemma Release_btn_held (s : SynthState) (vi : Int) :
    (ReleaseVoice s vi).btn_held = s.btn_held := by
  unfold ReleaseVoice
  split
  · rfl
  · dsimp only
    split
    · split <;> simp
    · simp

@[simp] lemma Release_midi_held (s : SynthState) (vi : Int) :
    (ReleaseVoice s vi).midi_held = s.midi_held := by
  unfold ReleaseVoice
  split
  · rfl
  · dsimp only
    split
    · split <;> simp
    · simp

@[simp] lemma Release_btn_hold_ts (s : SynthState) (vi : Int) :
    (ReleaseVoice s vi).btn_hold_ts = s.btn_hold_ts := by
  unfold ReleaseVoice
  split
  · rfl
  · dsimp only
    split
    · split <;> simp
    · simp

@[simp] lemma Release_midi_hold_ts (s : SynthState) (vi : Int) :
    (ReleaseVoice s vi).midi_hold_ts = s.midi_hold_ts := by
  unfold ReleaseVoice
  split
  · rfl
  · dsimp only
    split
    · split <;> simp
    · simp

@[simp] lemma Release_counter (s : SynthState) (vi : Int) :
    (ReleaseVoice s vi).global_press_counter = s.global_press_counter := by
  unfold ReleaseVoice
  split
  · rfl
  · dsimp only
    split
    · split <;> simp
    · simp

/-! ### Closed forms of the two-slot pool scans -/

lemma voiceIdxs_eq : voiceIdxs = [0, 1] := by
  decide

lemma FindFreeVoice_eq (s : SynthState) :
    FindFreeVoice s =
      if (s.voices 0).active = false then 0
      else if (s.voices 1).active = false then 1 else -1 := by
  rw [FindFreeVoice, voiceIdxs_eq]
  simp only [FindFreeGo]

lemma FindFreeVoice_cases (s : SynthState) :
    (FindFreeVoice s = -1 ∧ (s.voices 0).active = true ∧ (s.voices 1).active = true) ∨
    (FindFreeVoice s = 0 ∧ (s.voices 0).active = false) ∨
    (FindFreeVoice s = 1 ∧ (s.voices 0).active = true ∧ (s.voices 1).active = false) := by
  rw [FindFreeVoice_eq]
  rcases h0 : (s.voices 0).active <;> rcases h1 : (s.voices 1).active <;> simp

lemma FindFreeVoice_nonneg_free (s : SynthState) (h : 0 ≤ FindFreeVoice s) :
    (FindFreeVoice s = 0 ∨ FindFreeVoice s = 1) ∧
      (s.voices (FindFreeVoice s)).active = false := by
  rcases FindFreeVoice_cases s with ⟨hv, _, _⟩ | ⟨hv, h0⟩ | ⟨hv, _, h1⟩
  · rw [hv] at h; omega
  · rw [hv]; exact ⟨Or.inl rfl, h0⟩
  · rw [hv]; exact ⟨Or.inr rfl, h1⟩

lemma FindOldestActiveVoice_eq (s : SynthState) :
    FindOldestActiveVoice s =
      if (s.voices 0).active = false then
        (if (s.voices 1).active = false then -1 else 1)
      else if (s.voices 1).active = false then 0
      else if tsOf s 1 < tsOf s 0 then 1 else 0 := by
  rw [FindOldestActiveVoice, voiceIdxs_eq]
  rcases h0 : (s.voices 0).active <;> rcases h1 : (s.voices 1).active <;>
    simp [FindOldestGo, h0, h1]

/-! ### freeCount -/

lemma freeCount_le (s : SynthState) : freeCount s ≤ kNumVoices := by
  unfold freeCount kNumVoices
  split <;> split <;> omega

lemma freeCount_restStep (s : SynthState) (h : condB s = true) :
    freeCount (restStep s) < freeCount s := by
  have hfv : 0 ≤ FindFreeVoice s := by
    have := h
    unfold condB at this
    simp only [Bool.and_eq_true, decide_eq_true_eq] at this
    exact this.2
  obtain ⟨hcase, hfree⟩ := FindFreeVoice_nonneg_free s hfv
  unfold restStep freeCount
  rcases hcase with h0 | h1
  · rw [h0] at hfree ⊢
    simp [Function.update_noteq, hfree]
  · rw [h1] at hfree ⊢
    have h01 : (0 : Int) ≠ 1 := by omega
    simp [Function.update_noteq h01, hfree]

end Synth

namespace Synth

/-! ### Characterisation of the waiting-key scan -/

lemma scanGo_keep (c : Bool → Int → Bool) (ts : Bool → Int → Nat) (L : List (Bool × Int)) :
    ∀ (best : KeyRef) (bts : Nat), best.valid = true →
      (∀ p ∈ L, c p.1 p.2 = true → bts ≤ ts p.1 p.2) →
      scanGo c ts L best bts = best := by
  induction L with
  | nil => intro best bts _ _; rfl
  | cons p rest ih =>
    intro best bts hv hall
    obtain ⟨m, i⟩ := p
    unfold scanGo
    by_cases hc : c m i = true
    · rw [if_pos hc, if_neg]
      · exact ih best bts hv (fun q hq hcq => hall q (List.mem_cons_of_mem _ hq) hcq)
      · rintro (hbad | hbad)
        · rw [hv] at hbad; cases hbad
        · exact absurd hbad (not_lt.mpr (hall (m, i) (List.mem_cons_self _ _) hc))
    · rw [if_neg hc]
      exact ih best bts hv (fun q hq hcq => hall q (List.mem_cons_of_mem _ hq) hcq)

lemma scanGo_uniq (c : Bool → Int → Bool) (ts : Bool → Int → Nat) (W : Bool × Int)
    (L1 : List (Bool × Int)) :
    ∀ (L2 : List (Bool × Int)) (best : KeyRef) (bts : Nat),
      c W.1 W.2 = true →
      (∀ q ∈ L1, c q.1 q.2 = true → ts W.1 W.2 < ts q.1 q.2) →
      (∀ q ∈ L2, c q.1 q.2 = true → ts W.1 W.2 ≤ ts q.1 q.2) →
      (best.valid = false ∨ ts W.1 W.2 < bts) →
      scanGo c ts (L1 ++ W :: L2) best bts = ⟨W.1, W.2, true⟩ := by
  induction L1 with
  | nil =>
    intro L2 best bts hcW _ hL2 hbeat
    obtain ⟨mW, iW⟩ := W
    simp only [List.nil_append]
    unfold scanGo
    rw [if_pos hcW, if_pos hbeat]
    exact scanGo_keep c ts L2 ⟨mW, iW, true⟩ (ts mW iW) rfl hL2
  | cons p L1' ih =>
    intro L2 best bts hcW hL1 hL2 hbeat
    obtain ⟨m, i⟩ := p
    simp only [List.cons_append]
    unfold scanGo
    by_cases hc : c m i = true
    · rw [if_pos hc]
      have hWp : ts W.1 W.2 < ts m i := hL1 (m, i) (List.mem_cons_self _ _) hc
      by_cases hrep : (best.valid = false ∨ ts m i < bts)
      · rw [if_pos hrep]
        exact ih L2 ⟨m, i, true⟩ (ts m i) hcW
          (fun q hq => hL1 q (List.mem_cons_of_mem _ hq)) hL2 (Or.inr hWp)
      · rw [if_neg hrep]
        exact ih L2 best bts hcW
          (fun q hq => hL1 q (List.mem_cons_of_mem _ hq)) hL2 hbeat
    · rw [if_neg hc]
      exact ih L2 best bts hcW
        (fun q hq => hL1 q (List.mem_cons_of_mem _ hq)) hL2 hbeat

lemma scanGo_char (c : Bool → Int → Bool) (ts : Bool → Int → Nat) (L : List (Bool × Int)) :
    ∀ (best : KeyRef) (bts : Nat),
      (scanGo c ts L best bts = best ∧
        ∀ p ∈ L, c p.1 p.2 = true → best.valid = true ∧ bts ≤ ts p.1 p.2) ∨
      (∃ L1 W L2, L = L1 ++ W :: L2 ∧ c W.1 W.2 = true ∧
        scanGo c ts L best bts = ⟨W.1, W.2, true⟩ ∧
        (best.valid = true → ts W.1 W.2 < bts) ∧
        (∀ q ∈ L1, c q.1 q.2 = true → ts W.1 W.2 < ts q.1 q.2) ∧
        (∀ q ∈ L2, c q.1 q.2 = true → ts W.1 W.2 ≤ ts q.1 q.2)) := by
  induction L with
  | nil =>
    intro best bts
    left
    exact ⟨rfl, by simp⟩
  | cons p rest ih =>
    intro best bts
    obtain ⟨m, i⟩ := p
    by_cases hc : c m i = true
    · by_cases hrep : (best.valid = false ∨ ts m i < bts)
      · -- the head replaces the running best
        rcases ih ⟨m, i, true⟩ (ts m i) with ⟨heq, hall⟩ |
          ⟨L1, W, L2, hdec, hcW, heq, hlt, hL1, hL2⟩
        · right
          refine ⟨[], (m, i), rest, by simp, hc, ?_, ?_, by simp, ?_⟩
          · show scanGo c ts ((m, i) :: rest) best bts = _
            unfold scanGo
            rw [if_pos hc, if_pos hrep, heq]
          · intro hv
            rcases hrep with hbad | hgood
            · rw [hv] at hbad; cases hbad
            · exact hgood
          · exact fun q hq hcq => (hall q hq hcq).2
        · right
          refine ⟨(m, i) :: L1, W, L2, by simp [hdec], hcW, ?_, ?_, ?_, hL2⟩
          · show scanGo c ts ((m, i) :: rest) best bts = _
            unfold scanGo
            rw [if_pos hc, if_pos hrep, heq]
          · intro hv
            rcases hrep with hbad | hgood
            · rw [hv] at hbad; cases hbad
            · exact lt_trans (hlt rfl) hgood
          · intro q hq hcq
            rcases List.mem_cons.mp hq with rfl | hq'
            · exact hlt rfl
            · exact hL1 q hq' hcq
      · -- the head is a candidate but does not replace: best is valid, bts ≤ ts m i
        have hv : best.valid = true := by
          rcases hval : best.valid with _ | _
          · exact absurd (Or.inl hval) hrep
          · rfl
        have hle : bts ≤ ts m i := by
          rcases Nat.lt_or_ge (ts m i) bts with hlt2 | hge
          · exact absurd (Or.inr hlt2) hrep
          · exact hge
        rcases ih best bts with ⟨heq, hall⟩ |
          ⟨L1, W, L2, hdec, hcW, heq, hlt, hL1, hL2⟩
        · left
          constructor
          · show scanGo c ts ((m, i) :: rest) best bts = best
            unfold scanGo
            rw [if_pos hc, if_neg hrep, heq]
          · intro q hq hcq
            rcases List.mem_cons.mp hq with rfl | hq'
            · exact ⟨hv, hle⟩
            · exact hall q hq' hcq
        · right
          refine ⟨(m, i) :: L1, W, L2, by simp [hdec], hcW, ?_, hlt, ?_, hL2⟩
          · show scanGo c ts ((m, i) :: rest) best bts = _
            unfold scanGo
            rw [if_pos hc, if_neg hrep, heq]
          · intro q hq hcq
            rcases List.mem_cons.mp hq with rfl | hq'
            · exact lt_of_lt_of_le (hlt hv) hle
            · exact hL1 q hq' hcq
    · -- the head is not a candidate
      rcases ih best bts with ⟨heq, hall⟩ |
        ⟨L1, W, L2, hdec, hcW, heq, hlt, hL1, hL2⟩
      · left
        constructor
        · show scanGo c ts ((m, i) :: rest) best bts = best
          unfold scanGo
          rw [if_neg hc, heq]
        · intro q hq hcq
          rcases List.mem_cons.mp hq with rfl | hq'
          · exact absurd hcq hc
          · exact hall q hq' hcq
      · right
        refine ⟨(m, i) :: L1, W, L2, by simp [hdec], hcW, ?_, hlt, ?_, hL2⟩
        · show scanGo c ts ((m, i) :: rest) best bts = _
          unfold scanGo
          rw [if_neg hc, heq]
        · intro q hq hcq
          rcases List.mem_cons.mp hq with rfl | hq'
          · exact absurd hcq hc
          · exact hL1 q hq' hcq

end Synth

namespace Synth

/-! ### FindOldestWaitingKey facts -/

set_option maxRecDepth 16384 in
lemma allKeys_id_nonneg : ∀ p ∈ allKeys, 0 ≤ p.2 := by
  decide

lemma FOWK_char (s : SynthState) :
    ((FindOldestWaitingKey s).valid = false ∧
      ∀ p ∈ allKeys, waitCand s p.1 p.2 = false) ∨
    (∃ L1 W L2, allKeys = L1 ++ W :: L2 ∧ waitCand s W.1 W.2 = true ∧
      FindOldestWaitingKey s = ⟨W.1, W.2, true⟩ ∧
      (∀ q ∈ L1, waitCand s q.1 q.2 = true → GetTs s W.1 W.2 < GetTs s q.1 q.2) ∧
      (∀ q ∈ L2, waitCand s q.1 q.2 = true → GetTs s W.1 W.2 ≤ GetTs s q.1 q.2)) := by
  rcases scanGo_char (waitCand s) (GetTs s) allKeys ⟨false, -1, false⟩ 0 with
    ⟨heq, hall⟩ | ⟨L1, W, L2, hdec, hcW, heq, _, hL1, hL2⟩
  · left
    constructor
    · show (FindOldestWaitingKey s).valid = false
      rw [FindOldestWaitingKey, heq]
    · intro p hp
      rcases hcp : waitCand s p.1 p.2 with _ | _
      · rfl
      · exact absurd (hall p hp hcp).1 (by simp)
  · right
    exact ⟨L1, W, L2, hdec, hcW, heq, hL1, hL2⟩

lemma FOWK_valid_cand (s : SynthState) (h : (FindOldestWaitingKey s).valid = true) :
    waitCand s (FindOldestWaitingKey s).is_midi (FindOldestWaitingKey s).id = true := by
  rcases FOWK_char s with ⟨hval, _⟩ | ⟨L1, W, L2, _, hcW, heq, _, _⟩
  · rw [hval] at h; cases h
  · rw [heq]; exact hcW

lemma FOWK_id_nonneg (s : SynthState) (h : (FindOldestWaitingKey s).valid = true) :
    0 ≤ (FindOldestWaitingKey s).id := by
  rcases FOWK_char s with ⟨hval, _⟩ | ⟨L1, W, L2, hdec, _, heq, _, _⟩
  · rw [hval] at h; cases h
  · rw [heq]
    exact allKeys_id_nonneg W (by rw [hdec]; exact List.mem_append_right _ (List.mem_cons_self _ _))

lemma FOWK_min (s : SynthState) (h : (FindOldestWaitingKey s).valid = true) :
    ∀ p ∈ allKeys, waitCand s p.1 p.2 = true →
      GetTs s (FindOldestWaitingKey s).is_midi (FindOldestWaitingKey s).id ≤
        GetTs s p.1 p.2 := by
  rcases FOWK_char s with ⟨hval, _⟩ | ⟨L1, W, L2, hdec, hcW, heq, hL1, hL2⟩
  · rw [hval] at h; cases h
  · intro p hp hcp
    rw [heq]
    rw [hdec] at hp
    rcases List.mem_append.mp hp with hp1 | hp2
    · exact le_of_lt (hL1 p hp1 hcp)
    · rcases List.mem_cons.mp hp2 with rfl | hp3
      · exact le_refl _
      · exact hL2 p hp3 hcp

lemma FOWK_invalid_nocand (s : SynthState) (h : (FindOldestWaitingKey s).valid = false) :
    ∀ p ∈ allKeys, waitCand s p.1 p.2 = false := by
  rcases FOWK_char s with ⟨_, hall⟩ | ⟨L1, W, L2, _, _, heq, _, _⟩
  · exact hall
  · rw [heq] at h; cases h

/-- Stability of the waiting scan: if the candidates of b are a subset of
those of a, timestamps agree, and the winner of a is still a candidate of
b, then b elects the same winner. -/
lemma FOWK_stable (a b : SynthState)
    (hW : (FindOldestWaitingKey a).valid = true)
    (hcb : waitCand b (FindOldestWaitingKey a).is_midi (FindOldestWaitingKey a).id = true)
    (hsub : ∀ p ∈ allKeys, waitCand b p.1 p.2 = true → waitCand a p.1 p.2 = true)
    (hts : ∀ p ∈ allKeys, GetTs b p.1 p.2 = GetTs a p.1 p.2) :
    FindOldestWaitingKey b = FindOldestWaitingKey a := by
  rcases FOWK_char a with ⟨hval, _⟩ | ⟨L1, W, L2, hdec, hcW, heq, hL1, hL2⟩
  · rw [hval] at hW; cases hW
  · have hWmem : W ∈ allKeys := by
      rw [hdec]; exact List.mem_append_right _ (List.mem_cons_self _ _)
    have htsW : GetTs b W.1 W.2 = GetTs a W.1 W.2 := hts W hWmem
    rw [heq]
    show FindOldestWaitingKey b = _
    rw [FindOldestWaitingKey, hdec]
    apply scanGo_uniq
    · rw [heq] at hcb; exact hcb
    · intro q hq hcq
      have hqmem : q ∈ allKeys := by rw [hdec]; exact List.mem_append_left _ hq
      rw [htsW, hts q hqmem]
      exact hL1 q hq (hsub q hqmem hcq)
    · intro q hq hcq
      have hqmem : q ∈ allKeys := by
        rw [hdec]; exact List.mem_append_right _ (List.mem_cons_of_mem _ hq)
      rw [htsW, hts q hqmem]
      exact hL2 q hq (hsub q hqmem hcq)
    · exact Or.inl rfl

end Synth

namespace Synth

/-! ### Restitution-loop invariants -/

lemma condB_elim {s : SynthState} (h : condB s = true) :
    (FindOldestWaitingKey s).valid = true ∧ 0 ≤ FindFreeVoice s := by
  unfold condB at h
  simpa using h

lemma waitCand_elim {s : SynthState} {m : Bool} {i : Int} (h : waitCand s m i = true) :
    GetHeld s m i = true ∧ GetOwnerVoice s m i < 0 := by
  unfold waitCand at h
  simpa using h

@[simp] lemma RL_btn_held (s : SynthState) (n : Nat) :
    (RestLoop s n).btn_held = s.btn_held := by
  induction n generalizing s with
  | zero => rfl
  | succ n ih =>
    unfold RestLoop
    split
    · rw [ih]; simp [restStep]
    · rfl

@[simp] lemma RL_midi_held (s : SynthState) (n : Nat) :
    (RestLoop s n).midi_held = s.midi_held := by
  induction n generalizing s with
  | zero => rfl
  | succ n ih =>
    unfold RestLoop
    split
    · rw [ih]; simp [restStep]
    · rfl

@[simp] lemma RL_btn_hold_ts (s : SynthState) (n : Nat) :
    (RestLoop s n).btn_hold_ts = s.btn_hold_ts := by
  induction n generalizing s with
  | zero => rfl
  | succ n ih =>
    unfold RestLoop
    split
    · rw [ih]; simp [restStep]
    · rfl

@[simp] lemma RL_midi_hold_ts (s : SynthState) (n : Nat) :
    (RestLoop s n).midi_hold_ts = s.midi_hold_ts := by
  induction n generalizing s with
  | zero => rfl
  | succ n ih =>
    unfold RestLoop
    split
    · rw [ih]; simp [restStep]
    · rfl

@[simp] lemma RL_counter (s : SynthState) (n : Nat) :
    (RestLoop s n).global_press_counter = s.global_press_counter := by
  induction n generalizing s with
  | zero => rfl
  | succ n ih =>
    unfold RestLoop
    split
    · rw [ih]; simp [restStep]
    · rfl

lemma GetHeld_RL (s : SynthState) (n : Nat) (m : Bool) (i : Int) :
    GetHeld (RestLoop s n) m i = GetHeld s m i := by
  cases m <;> simp [GetHeld]

lemma GetTs_RL (s : SynthState) (n : Nat) (m : Bool) (i : Int) :
    GetTs (RestLoop s n) m i = GetTs s m i := by
  cases m <;> simp [GetTs]

lemma RL_fuel (n : Nat) : ∀ (l : Nat) (s : SynthState),
    freeCount s < n → freeCount s < l → RestLoop s n = RestLoop s l := by
  induction n with
  | zero => intro l s h _; omega
  | succ n ih =>
    intro l s hn hl
    rcases l with _ | l
    · omega
    · show RestLoop s (n + 1) = RestLoop s (l + 1)
      unfold RestLoop
      rcases hcond : condB s with _ | _
      · rfl
      · have hlt := freeCount_restStep s hcond
        exact ih l (restStep s) (by omega) (by omega)

lemma RL_no_cond (n : Nat) : ∀ (s : SynthState),
    freeCount s < n → condB (RestLoop s n) = false := by
  induction n with
  | zero => intro s h; omega
  | succ n ih =>
    intro s hn
    unfold RestLoop
    rcases hcond : condB s with _ | _
    · exact hcond
    · have hlt := freeCount_restStep s hcond
      exact ih (restStep s) (by omega)

lemma Restitute_no_cond (s : SynthState) : condB (Restitute s) = false := by
  unfold Restitute
  exact RL_no_cond (kNumVoices + 1) s (by have := freeCount_le s; omega)

lemma RestLoop_of_no_cond (s : SynthState) (n : Nat) (h : condB s = false) :
    RestLoop s n = s := by
  rcases n with _ | n
  · rfl
  · unfold RestLoop
    rw [h]
    simp

lemma Restitute_fix (s : SynthState) (h : condB s = false) : Restitute s = s :=
  RestLoop_of_no_cond s _ h

lemma Restitute_idem (s : SynthState) : Restitute (Restitute s) = Restitute s :=
  Restitute_fix _ (Restitute_no_cond s)

lemma RL_active_mono (n : Nat) : ∀ (s : SynthState) (v : Int),
    (s.voices v).active = true → (RestLoop s n).voices v = s.voices v := by
  induction n with
  | zero => intro s v _; rfl
  | succ n ih =>
    intro s v hv
    unfold RestLoop
    rcases hcond : condB s with _ | _
    · rfl
    · obtain ⟨_, hfv⟩ := condB_elim hcond
      obtain ⟨_, hfree⟩ := FindFreeVoice_nonneg_free s hfv
      have hne : FindFreeVoice s ≠ v := by
        intro hvv; rw [hvv] at hfree; rw [hv] at hfree; cases hfree
      have hstep : (restStep s).voices v = s.voices v := by
        simp [restStep, Function.update_noteq (fun hh => hne hh.symm)]
      rw [if_pos rfl, ih (restStep s) v (by rw [hstep]; exact hv), hstep]

lemma RL_owner_pos (n : Nat) : ∀ (s : SynthState) (m : Bool) (i : Int),
    0 ≤ GetOwnerVoice s m i →
    GetOwnerVoice (RestLoop s n) m i = GetOwnerVoice s m i := by
  induction n with
  | zero => intro s m i _; rfl
  | succ n ih =>
    intro s m i hpos
    unfold RestLoop
    rcases hcond : condB s with _ | _
    · rfl
    · obtain ⟨hvalid, _⟩ := condB_elim hcond
      obtain ⟨_, hWneg⟩ := waitCand_elim (FOWK_valid_cand s hvalid)
      have hne : ¬(m = (FindOldestWaitingKey s).is_midi ∧ i = (FindOldestWaitingKey s).id) := by
        rintro ⟨rfl, rfl⟩
        omega
      have hstep : GetOwnerVoice (restStep s) m i = GetOwnerVoice s m i := by
        unfold restStep
        exact GetOwnerVoice_Assign_other _ _ _ _ _ _ hne
      rw [if_pos rfl, ih (restStep s) m i (by rw [hstep]; exact hpos), hstep]

lemma RL_owner_neg (n : Nat) : ∀ (s : SynthState) (m : Bool) (i : Int),
    GetOwnerVoice (RestLoop s n) m i < 0 →
    GetOwnerVoice (RestLoop s n) m i = GetOwnerVoice s m i := by
  induction n with
  | zero => intro s m i _; rfl
  | succ n ih =>
    intro s m i hneg
    rw [RestLoop] at hneg ⊢
    rcases hcond : condB s with _ | _
    · rfl
    · rw [hcond] at hneg
      rw [if_pos rfl] at hneg ⊢
      have hstepneg : GetOwnerVoice (restStep s) m i < 0 := by
        rw [← ih (restStep s) m i hneg]
        exact hneg
      rw [ih (restStep s) m i hneg]
      obtain ⟨hvalid, hfv⟩ := condB_elim hcond
      by_cases hsame : (m = (FindOldestWaitingKey s).is_midi ∧ i = (FindOldestWaitingKey s).id)
      · exfalso
        obtain ⟨hm, hi⟩ := hsame
        rw [hm, hi] at hstepneg
        have heqfv : GetOwnerVoice (restStep s) (FindOldestWaitingKey s).is_midi
            (FindOldestWaitingKey s).id = FindFreeVoice s := by
          unfold restStep
          exact GetOwnerVoice_Assign_same _ _ _ _
        omega
      · unfold restStep
        exact GetOwnerVoice_Assign_other _ _ _ _ _ _ hsame

end Synth

namespace Synth

/-! ### More preservation helpers -/

lemma GetHeld_Assign (s : SynthState) (vi : Int) (m2 : Bool) (kid : Int) (m : Bool) (i : Int) :
    GetHeld (AssignVoiceToKey s vi m2 kid) m i = GetHeld s m i := by
  cases m <;> simp [GetHeld]

lemma GetTs_Assign (s : SynthState) (vi : Int) (m2 : Bool) (kid : Int) (m : Bool) (i : Int) :
    GetTs (AssignVoiceToKey s vi m2 kid) m i = GetTs s m i := by
  cases m <;> simp [GetTs]

lemma GetHeld_Release (s : SynthState) (vi : Int) (m : Bool) (i : Int) :
    GetHeld (ReleaseVoice s vi) m i = GetHeld s m i := by
  cases m <;> simp [GetHeld]

lemma GetTs_Release (s : SynthState) (vi : Int) (m : Bool) (i : Int) :
    GetTs (ReleaseVoice s vi) m i = GetTs s m i := by
  cases m <;> simp [GetTs]

lemma GetHeld_SetOwnerVoice (s : SynthState) (m2 : Bool) (id2 vi : Int) (m : Bool) (i : Int) :
    GetHeld (SetOwnerVoice s m2 id2 vi) m i = GetHeld s m i := by
  cases m <;> simp [GetHeld]

lemma GetTs_SetOwnerVoice (s : SynthState) (m2 : Bool) (id2 vi : Int) (m : Bool) (i : Int) :
    GetTs (SetOwnerVoice s m2 id2 vi) m i = GetTs s m i := by
  cases m <;> simp [GetTs]

lemma freeCount_pos_of_cond (s : SynthState) (h : condB s = true) : 1 ≤ freeCount s := by
  obtain ⟨_, hfv⟩ := condB_elim h
  obtain ⟨hcase, hfree⟩ := FindFreeVoice_nonneg_free s hfv
  unfold freeCount
  rcases hcase with h0 | h1
  · rw [h0] at hfree
    rw [hfree]
    simp
  · rw [h1] at hfree
    rw [hfree]
    split <;> simp

lemma RL_unheld_owner (n : Nat) : ∀ (s : SynthState) (m : Bool) (i : Int),
    GetHeld s m i = false →
    GetOwnerVoice (RestLoop s n) m i = GetOwnerVoice s m i := by
  induction n with
  | zero => intro s m i _; rfl
  | succ n ih =>
    intro s m i hheld
    unfold RestLoop
    rcases hcond : condB s with _ | _
    · rfl
    · obtain ⟨hvalid, _⟩ := condB_elim hcond
      obtain ⟨hWheld, _⟩ := waitCand_elim (FOWK_valid_cand s hvalid)
      have hne : ¬(m = (FindOldestWaitingKey s).is_midi ∧ i = (FindOldestWaitingKey s).id) := by
        rintro ⟨rfl, rfl⟩
        rw [hheld] at hWheld
        cases hWheld
      have hstep : GetOwnerVoice (restStep s) m i = GetOwnerVoice s m i := by
        unfold restStep
        exact GetOwnerVoice_Assign_other _ _ _ _ _ _ hne
      have hheld2 : GetHeld (restStep s) m i = false := by
        unfold restStep
        rw [GetHeld_Assign]
        exact hheld
      rw [if_pos rfl, ih (restStep s) m i hheld2, hstep]

/-- Normal form of ReleaseVoice on an active slot whose owner
back-pointer matches. -/
lemma ReleaseVoice_eq (s : SynthState) (vi : Int)
    (ha : (s.voices vi).active = true)
    (hk : 0 ≤ (s.voices vi).key_id)
    (hmatch : GetOwnerVoice s (s.voices vi).is_midi (s.voices vi).key_id = vi) :
    ReleaseVoice s vi =
      { SetOwnerVoice s (s.voices vi).is_midi (s.voices vi).key_id (-1) with
          voices := Function.update s.voices vi ⟨false, (s.voices vi).is_midi, -1⟩ } := by
  unfold ReleaseVoice
  rw [if_neg (by rw [ha]; simp)]
  dsimp only
  rw [if_pos hk, if_pos hmatch]
  have hv : (SetOwnerVoice s (s.voices vi).is_midi (s.voices vi).key_id (-1)).voices
      = s.voices := SetOwnerVoice_voices _ _ _ _
  rw [hv]

lemma Restitute_unfold (s : SynthState) (h : condB s = true) :
    Restitute s = Restitute (restStep s) := by
  have h1 : Restitute s = RestLoop (restStep s) kNumVoices := by
    unfold Restitute
    rw [RestLoop, if_pos h]
  rw [h1]
  unfold Restitute
  apply RL_fuel
  · have := freeCount_restStep s h
    have := freeCount_le s
    omega
  · have := freeCount_restStep s h
    have := freeCount_le s
    omega

end Synth

namespace Synth

lemma GetHeld_Restitute (s : SynthState) (m : Bool) (i : Int) :
    GetHeld (Restitute s) m i = GetHeld s m i :=
  GetHeld_RL s _ m i

lemma GetTs_Restitute (s : SynthState) (m : Bool) (i : Int) :
    GetTs (Restitute s) m i = GetTs s m i :=
  GetTs_RL s _ m i

lemma GetOwnerVoice_mkvoices (X : SynthState) (u : Int → Voice) (m : Bool) (i : Int) :
    GetOwnerVoice { X with voices := u } m i = GetOwnerVoice X m i := by
  cases m <;> rfl

lemma waitCand_intro {s : SynthState} {m : Bool} {i : Int}
    (hh : GetHeld s m i = true) (ho : GetOwnerVoice s m i < 0) :
    waitCand s m i = true := by
  unfold waitCand
  simp [hh, ho]

/-- Rebinding the freed voice to the key it was just released from
restores the state exactly. -/
lemma Assign_after_kill (r : SynthState) (v : Int) (m : Bool) (kid : Int)
    (hv : r.voices v = ⟨true, m, kid⟩)
    (hown : GetOwnerVoice r m kid = v) :
    AssignVoiceToKey
      { SetOwnerVoice r m kid (-1) with
          voices := Function.update r.voices v ⟨false, m, -1⟩ } v m kid = r := by
  have hvv : Function.update (Function.update r.voices v ⟨false, m, -1⟩) v
      (⟨true, m, kid⟩ : Voice) = r.voices := by
    rw [Function.update_idem, ← hv, Function.update_eq_self]
  cases m
  · have hown2 : r.btn_voice kid = v := by simpa [GetOwnerVoice] using hown
    simp only [AssignVoiceToKey, SetOwnerVoice, Bool.false_eq_true, if_false]
    refine SynthState.ext ?_ rfl ?_ rfl rfl rfl rfl rfl
    · exact hvv
    · show Function.update (Function.update r.btn_voice kid (-1)) kid v = r.btn_voice
      rw [Function.update_idem, ← hown2, Function.update_eq_self]
  · have hown2 : r.midi_voice kid = v := by simpa [GetOwnerVoice] using hown
    simp only [AssignVoiceToKey, SetOwnerVoice, eq_self_iff_true, if_true]
    refine SynthState.ext ?_ rfl rfl rfl rfl ?_ rfl rfl
    · exact hvv
    · show Function.update (Function.update r.midi_voice kid (-1)) kid v = r.midi_voice
      rw [Function.update_idem, ← hown2, Function.update_eq_self]

end Synth

namespace Synth

/-- Releasing a voice that the restitution pass itself bound, then
rerunning restitution, reproduces the restituted state exactly: the
freed voice is again the lowest free slot and its former owner is again
the oldest waiting key. -/
lemma killrestore (k : Nat) : ∀ (s : SynthState) (v : Int),
    freeCount s ≤ k →
    (s.voices v).active = false →
    ((Restitute s).voices v).active = true →
    Restitute (ReleaseVoice (Restitute s) v) = Restitute s := by
  induction k with
  | zero =>
    intro s v hk hinact hact
    rcases hcond : condB s with _ | _
    · rw [Restitute_fix s hcond, hinact] at hact
      cases hact
    · have := freeCount_pos_of_cond s hcond
      omega
  | succ k ih =>
    intro s v hk hinact hact
    rcases hcond : condB s with _ | _
    · rw [Restitute_fix s hcond, hinact] at hact
      cases hact
    · have hru : Restitute s = Restitute (restStep s) := Restitute_unfold s hcond
      obtain ⟨hWvalid, hfv⟩ := condB_elim hcond
      by_cases hvfv : v = FindFreeVoice s
      · -- v is exactly the voice this iteration binds
        subst hvfv
        have hcand := FOWK_valid_cand s hWvalid
        obtain ⟨hWheld, hWneg⟩ := waitCand_elim hcand
        have hWid : 0 ≤ (FindOldestWaitingKey s).id := FOWK_id_nonneg s hWvalid
        have hstepfv : (restStep s).voices (FindFreeVoice s) =
            ⟨true, (FindOldestWaitingKey s).is_midi, (FindOldestWaitingKey s).id⟩ := by
          unfold restStep
          rw [Assign_voices]
          exact Function.update_same _ _ _
        have hrv : (Restitute s).voices (FindFreeVoice s) =
            ⟨true, (FindOldestWaitingKey s).is_midi, (FindOldestWaitingKey s).id⟩ := by
          rw [hru]
          have h8 : (Restitute (restStep s)).voices (FindFreeVoice s) =
              (restStep s).voices (FindFreeVoice s) := by
            unfold Restitute
            exact RL_active_mono (kNumVoices + 1) (restStep s) (FindFreeVoice s)
              (by rw [hstepfv])
          rw [h8, hstepfv]
        have hsown : GetOwnerVoice (restStep s) (FindOldestWaitingKey s).is_midi
            (FindOldestWaitingKey s).id = FindFreeVoice s := by
          unfold restStep
          exact GetOwnerVoice_Assign_same _ _ _ _
        have hrown : GetOwnerVoice (Restitute s) (FindOldestWaitingKey s).is_midi
            (FindOldestWaitingKey s).id = FindFreeVoice s := by
          rw [hru]
          have h9 : GetOwnerVoice (Restitute (restStep s)) (FindOldestWaitingKey s).is_midi
              (FindOldestWaitingKey s).id =
              GetOwnerVoice (restStep s) (FindOldestWaitingKey s).is_midi
                (FindOldestWaitingKey s).id := by
            unfold Restitute
            exact RL_owner_pos (kNumVoices + 1) (restStep s) _ _ (by rw [hsown]; exact hfv)
          rw [h9, hsown]
        have hkill : ReleaseVoice (Restitute s) (FindFreeVoice s) =
            { SetOwnerVoice (Restitute s) (FindOldestWaitingKey s).is_midi
                (FindOldestWaitingKey s).id (-1) with
                voices := Function.update (Restitute s).voices (FindFreeVoice s)
                  ⟨false, (FindOldestWaitingKey s).is_midi, -1⟩ } := by
          have h1 := ReleaseVoice_eq (Restitute s) (FindFreeVoice s)
            (by rw [hrv]) (by rw [hrv]; exact hWid) (by rw [hrv]; exact hrown)
          rw [h1, hrv]
        have hkheld : ∀ (m : Bool) (i : Int),
            GetHeld (ReleaseVoice (Restitute s) (FindFreeVoice s)) m i = GetHeld s m i := by
          intro m i
          rw [GetHeld_Release, GetHeld_Restitute]
        have hkts : ∀ (m : Bool) (i : Int),
            GetTs (ReleaseVoice (Restitute s) (FindFreeVoice s)) m i = GetTs s m i := by
          intro m i
          rw [GetTs_Release, GetTs_Restitute]
        have hkownW : GetOwnerVoice (ReleaseVoice (Restitute s) (FindFreeVoice s))
            (FindOldestWaitingKey s).is_midi (FindOldestWaitingKey s).id = -1 := by
          rw [hkill, GetOwnerVoice_mkvoices, GetOwnerVoice_SetOwnerVoice_same]
        have hkown_other : ∀ (m : Bool) (i : Int),
            ¬(m = (FindOldestWaitingKey s).is_midi ∧ i = (FindOldestWaitingKey s).id) →
            GetOwnerVoice (ReleaseVoice (Restitute s) (FindFreeVoice s)) m i =
              GetOwnerVoice (Restitute s) m i := by
          intro m i hne
          rw [hkill, GetOwnerVoice_mkvoices, GetOwnerVoice_SetOwnerVoice_other _ _ _ _ _ _ hne]
        have hsub : ∀ p ∈ allKeys,
            waitCand (ReleaseVoice (Restitute s) (FindFreeVoice s)) p.1 p.2 = true →
            waitCand s p.1 p.2 = true := by
          intro p _ hcp
          obtain ⟨h1, h2⟩ := waitCand_elim hcp
          by_cases hpW : (p.1 = (FindOldestWaitingKey s).is_midi ∧
              p.2 = (FindOldestWaitingKey s).id)
          · obtain ⟨hm, hi⟩ := hpW
            rw [hm, hi]
            exact hcand
          · have h3 : GetOwnerVoice (Restitute s) p.1 p.2 < 0 := by
              rw [← hkown_other p.1 p.2 hpW]
              exact h2
            have h3' : GetOwnerVoice (Restitute (restStep s)) p.1 p.2 < 0 := by
              rw [← hru]
              exact h3
            have h5 := RL_owner_neg (kNumVoices + 1) (restStep s) p.1 p.2 h3'
            have h4 : GetOwnerVoice (restStep s) p.1 p.2 < 0 := by
              rw [← h5]
              exact h3'
            have h7 : GetOwnerVoice (restStep s) p.1 p.2 = GetOwnerVoice s p.1 p.2 := by
              unfold restStep
              exact GetOwnerVoice_Assign_other _ _ _ _ _ _ hpW
            exact waitCand_intro (by rw [← hkheld p.1 p.2]; exact h1) (by rw [← h7]; exact h4)
        have hFOWKk : FindOldestWaitingKey (ReleaseVoice (Restitute s) (FindFreeVoice s)) =
            FindOldestWaitingKey s :=
          FOWK_stable s (ReleaseVoice (Restitute s) (FindFreeVoice s)) hWvalid
            (waitCand_intro (by rw [hkheld]; exact hWheld) (by rw [hkownW]; omega))
            hsub (fun p _ => hkts p.1 p.2)
        have hkvfv : ((ReleaseVoice (Restitute s) (FindFreeVoice s)).voices
            (FindFreeVoice s)).active = false := by
          rw [hkill]
          show ((Function.update (Restitute s).voices (FindFreeVoice s)
            ⟨false, (FindOldestWaitingKey s).is_midi, -1⟩) (FindFreeVoice s)).active = false
          rw [Function.update_same]
        have hFFVk : FindFreeVoice (ReleaseVoice (Restitute s) (FindFreeVoice s)) =
            FindFreeVoice s := by
          rcases FindFreeVoice_cases s with ⟨hv, _, _⟩ | ⟨hv, _⟩ | ⟨hv, h0act, _⟩
          · rw [hv] at hfv; omega
          · rw [FindFreeVoice_eq]
            rw [hv] at hkvfv ⊢
            rw [if_pos hkvfv]
          · have hs0 : (restStep s).voices 0 = s.voices 0 := by
              unfold restStep
              rw [Assign_voices, hv]
              exact Function.update_noteq (by omega) _ _
            have hr0 : (Restitute s).voices 0 = s.voices 0 := by
              rw [hru]
              have h10 : (Restitute (restStep s)).voices 0 = (restStep s).voices 0 := by
                unfold Restitute
                exact RL_active_mono (kNumVoices + 1) (restStep s) 0 (by rw [hs0]; exact h0act)
              rw [h10, hs0]
            have hk0 : ((ReleaseVoice (Restitute s) (FindFreeVoice s)).voices 0).active
                = true := by
              rw [hkill]
              show ((Function.update (Restitute s).voices (FindFreeVoice s)
                ⟨false, (FindOldestWaitingKey s).is_midi, -1⟩) 0).active = true
              rw [hv, Function.update_noteq (by omega : (0 : Int) ≠ 1), hr0]
              exact h0act
            rw [FindFreeVoice_eq]
            rw [hv] at hkvfv hk0 ⊢
            rw [if_neg (by rw [hk0]; simp), if_pos hkvfv]
        have hcondk : condB (ReleaseVoice (Restitute s) (FindFreeVoice s)) = true := by
          unfold condB
          rw [hFOWKk, hFFVk]
          simp [hWvalid, hfv]
        have hstepk : restStep (ReleaseVoice (Restitute s) (FindFreeVoice s)) =
            Restitute s := by
          unfold restStep
          rw [hFOWKk, hFFVk, hkill]
          exact Assign_after_kill (Restitute s) (FindFreeVoice s)
            (FindOldestWaitingKey s).is_midi (FindOldestWaitingKey s).id hrv hrown
        calc Restitute (ReleaseVoice (Restitute s) (FindFreeVoice s))
            = RestLoop (ReleaseVoice (Restitute s) (FindFreeVoice s)) (kNumVoices + 1) := rfl
          _ = RestLoop (restStep (ReleaseVoice (Restitute s) (FindFreeVoice s)))
                kNumVoices := by
              rw [RestLoop, if_pos hcondk]
          _ = RestLoop (Restitute s) kNumVoices := by rw [hstepk]
          _ = Restitute s := RestLoop_of_no_cond _ _ (Restitute_no_cond s)
      · -- v is bound by a later iteration: induction hypothesis on restStep s
        have hstepv : (restStep s).voices v = s.voices v := by
          unfold restStep
          rw [Assign_voices]
          exact Function.update_noteq hvfv _ _
        rw [hru] at hact ⊢
        exact ih (restStep s) v
          (by have h1 := freeCount_restStep s hcond; omega)
          (by rw [hstepv]; exact hinact) hact

end Synth

namespace Synth

lemma mkvoices_voices (X : SynthState) (u : Int → Voice) :
    ({ X with voices := u } : SynthState).voices = u := rfl

lemma SetHeld_id (s : SynthState) (m : Bool) (i : Int) (v : Bool) (h : GetHeld s m i = v) :
    SetHeld s m i v = s := by
  cases m
  · have h2 : s.btn_held i = v := by simpa [GetHeld] using h
    simp only [SetHeld, Bool.false_eq_true, if_false]
    rw [← h2, Function.update_eq_self]
  · have h2 : s.midi_held i = v := by simpa [GetHeld] using h
    simp only [SetHeld, eq_self_iff_true, if_true]
    rw [← h2, Function.update_eq_self]

lemma GetOwnerVoice_Release (s : SynthState) (vi : Int) (m : Bool) (i : Int) :
    GetOwnerVoice (ReleaseVoice s vi) m i = GetOwnerVoice s m i ∨
    GetOwnerVoice (ReleaseVoice s vi) m i = -1 := by
  unfold ReleaseVoice
  split
  · left; rfl
  · dsimp only
    split
    · split
      · rw [GetOwnerVoice_mkvoices]
        by_cases h : (m = (s.voices vi).is_midi ∧ i = (s.voices vi).key_id)
        · obtain ⟨rfl, rfl⟩ := h
          right
          exact GetOwnerVoice_SetOwnerVoice_same _ _ _ _
        · left
          exact GetOwnerVoice_SetOwnerVoice_other _ _ _ _ _ _ h
      · left
        rw [GetOwnerVoice_mkvoices]
    · left
      rw [GetOwnerVoice_mkvoices]

lemma Release_inactive_after (s : SynthState) (vi : Int) (h : (s.voices vi).active = true) :
    ((ReleaseVoice s vi).voices vi).active = false := by
  unfold ReleaseVoice
  rw [if_neg (by rw [h]; simp)]
  dsimp only
  rw [mkvoices_voices, Function.update_same]

lemma Release_noop (s : SynthState) (vi : Int) (h : (s.voices vi).active = false) :
    ReleaseVoice s vi = s := by
  unfold ReleaseVoice
  rw [if_pos h]

lemma OnKeyReleased_eq (s : SynthState) (m : Bool) (id : Int)
    (h : (m && (decide (id < 0) || decide ((kNumMidiNotes : Int) ≤ id))) = false) :
    OnKeyReleased s m id =
      Restitute (if 0 ≤ GetOwnerVoice (SetHeld s m id false) m id
        then ReleaseVoice (SetHeld s m id false) (GetOwnerVoice (SetHeld s m id false) m id)
        else SetHeld s m id false) := by
  unfold OnKeyReleased
  rw [if_neg (by rw [h]; simp)]

end Synth

namespace Synth

/-- C6: a second OnKeyReleased on the same id, with no intervening
press, leaves the entire allocation state exactly as the first left it;
proved for every state, every domain and every id. -/
theorem c6_release_idempotent (s : SynthState) (m : Bool) (id : Int) :
    OnKeyReleased (OnKeyReleased s m id) m id = OnKeyReleased s m id := by
  by_cases hg : (m && (decide (id < 0) || decide ((kNumMidiNotes : Int) ≤ id))) = true
  · have h0 : ∀ t, OnKeyReleased t m id = t := by
      intro t
      unfold OnKeyReleased
      rw [if_pos hg]
    rw [h0, h0]
  · have hg' : (m && (decide (id < 0) || decide ((kNumMidiNotes : Int) ≤ id))) = false := by
      simpa using hg
    set sh := SetHeld s m id false with hsh
    set ov := GetOwnerVoice sh m id with hov
    set u := if 0 ≤ ov then ReleaseVoice sh ov else sh with hu
    have h1 : OnKeyReleased s m id = Restitute u := OnKeyReleased_eq s m id hg'
    have huheld : GetHeld u m id = false := by
      rw [hu]
      split
      · rw [GetHeld_Release, hsh, GetHeld_SetHeld_same]
      · rw [hsh, GetHeld_SetHeld_same]
    have hs1held : GetHeld (Restitute u) m id = false := by
      rw [GetHeld_Restitute]
      exact huheld
    rw [h1, OnKeyReleased_eq (Restitute u) m id hg']
    have hseth : SetHeld (Restitute u) m id false = Restitute u :=
      SetHeld_id _ _ _ _ hs1held
    rw [hseth]
    set ov1 := GetOwnerVoice (Restitute u) m id with hov1
    by_cases hpos : 0 ≤ ov1
    · rw [if_pos hpos]
      have hovu : ov1 = GetOwnerVoice u m id := by
        rw [hov1]
        exact RL_unheld_owner (kNumVoices + 1) u m id huheld
      by_cases hact : ((Restitute u).voices ov1).active = true
      · -- the released slot was rebound by the first restitution pass
        have hinact : (u.voices ov1).active = false := by
          rw [hu] at hovu ⊢
          by_cases hwv : 0 ≤ ov
          · rw [if_pos hwv] at hovu ⊢
            by_cases hshact : (sh.voices ov).active = true
            · rcases GetOwnerVoice_Release sh ov m id with hsame | hneg1
              · have hove : ov1 = ov := by rw [hovu, hsame, hov]
                rw [hove]
                exact Release_inactive_after sh ov hshact
              · rw [hovu, hneg1] at hpos
                omega
            · have hshact' : (sh.voices ov).active = false := by
                simpa using hshact
              have hrel : ReleaseVoice sh ov = sh := Release_noop sh ov hshact'
              rw [hrel] at hovu ⊢
              have hove : ov1 = ov := by rw [hovu, hov]
              rw [hove]
              exact hshact'
          · rw [if_neg hwv] at hovu
            rw [hovu, ← hov] at hpos
            omega
        exact killrestore kNumVoices u ov1 (freeCount_le u) hinact hact
      · have hact' : ((Restitute u).voices ov1).active = false := by
          simpa using hact
        rw [Release_noop (Restitute u) ov1 hact']
        exact Restitute_idem u
    · rw [if_neg hpos]
      exact Restitute_idem u

end Synth

namespace Synth

/-- C9: the restitution loop always terminates within pool capacity:
fuel kNumVoices + 1 is always enough (more fuel changes nothing), every
productive iteration binds the current free voice and strictly decreases
the number of free voices, the free count never exceeds pool capacity,
and the loop stops exactly when no free voice or no waiting source
remains. -/
theorem c9_restitution_terminates :
    (∀ (s : SynthState) (n : Nat), kNumVoices + 1 ≤ n → RestLoop s n = Restitute s) ∧
    (∀ s : SynthState, condB s = true → freeCount (restStep s) < freeCount s) ∧
    (∀ s : SynthState, freeCount s ≤ kNumVoices) ∧
    (∀ s : SynthState, condB (Restitute s) = false) := by
  refine ⟨?_, freeCount_restStep, freeCount_le, Restitute_no_cond⟩
  intro s n hn
  unfold Restitute
  apply RL_fuel
  · have := freeCount_le s
    omega
  · have := freeCount_le s
    omega

/-- Witness for C9 at concrete inputs: fuel 5 computes the same state as
the canonical fuel on the four-press scenario, and on the concrete
waiting state one iteration strictly decreases the free count. -/
theorem c9_witness :
    (kNumVoices + 1 ≤ 5 ∧ RestLoop fourPress 5 = Restitute fourPress) ∧
    (condB waitState = true ∧ freeCount (restStep waitState) < freeCount waitState) :=
  ⟨⟨by decide, c9_restitution_terminates.1 fourPress 5 (by decide)⟩,
   ⟨by decide, c9_restitution_terminates.2.1 waitState (by decide)⟩⟩

end Synth

namespace Synth

/-- C3: after an in-range OnKeyReleased no free voice and waiting source
coexist (the loop stops exactly when one set is empty); a valid waiting
scan result is a held-and-unbound key of minimal timestamp over both
domains; the loop recomputes the waiting key and the free voice from the
current state on every iteration; and in the concrete 2-voice scenario
press 60, 62, 64 steals from 60, 66 steals from 62, then releasing 64
hands the freed voice 0 back to 60, the oldest waiting note, while 62
stays held and waiting. -/
theorem c3_restitution :
    (∀ (s : SynthState) (m : Bool) (id : Int),
        (m = true → 0 ≤ id ∧ id < (kNumMidiNotes : Int)) →
        condB (OnKeyReleased s m id) = false) ∧
    (∀ s : SynthState, (FindOldestWaitingKey s).valid = true →
        waitCand s (FindOldestWaitingKey s).is_midi (FindOldestWaitingKey s).id = true ∧
        ∀ p ∈ allKeys, waitCand s p.1 p.2 = true →
          GetTs s (FindOldestWaitingKey s).is_midi (FindOldestWaitingKey s).id ≤
            GetTs s p.1 p.2) ∧
    (∀ (s : SynthState) (n : Nat),
        RestLoop s (n + 1) = if condB s then RestLoop (restStep s) n else s) ∧
    (fourPressRel.midi_voice 60 = 0 ∧ fourPressRel.voices 0 = ⟨true, true, 60⟩ ∧
      fourPressRel.midi_held 62 = true ∧ fourPressRel.midi_voice 62 = -1 ∧
      fourPressRel.midi_voice 64 = -1) := by
  refine ⟨?_, fun s h => ⟨FOWK_valid_cand s h, FOWK_min s h⟩, fun s n => rfl, by decide⟩
  intro s m id hrange
  have hg : (m && (decide (id < 0) || decide ((kNumMidiNotes : Int) ≤ id))) = false := by
    cases m
    · rfl
    · obtain ⟨h1, h2⟩ := hrange rfl
      simp only [Bool.true_and, Bool.or_eq_false_iff, decide_eq_false_iff_not]
      omega
  rw [OnKeyReleased_eq s m id hg]
  exact Restitute_no_cond _

/-- Witness for C3 at concrete inputs: releasing the in-range note 64 of
the four-press scenario leaves no free-and-waiting pair, and the waiting
scan of the four-press state returns a held, unbound key. -/
theorem c3_witness :
    ((true = true → 0 ≤ (64 : Int) ∧ (64 : Int) < (kNumMidiNotes : Int)) ∧
      condB (OnKeyReleased fourPress true 64) = false) ∧
    ((FindOldestWaitingKey fourPress).valid = true ∧
      waitCand fourPress (FindOldestWaitingKey fourPress).is_midi
        (FindOldestWaitingKey fourPress).id = true) :=
  ⟨⟨by decide, c3_restitution.1 fourPress true 64 (by decide)⟩,
   ⟨by decide, (c3_restitution.2.1 fourPress (by decide)).1⟩⟩

end Synth

namespace Synth

set_option maxRecDepth 32768 in
/-- C1 fails on the code: after two MIDI NoteOn 60 events with no
NoteOff between them (reachable, since the MIDI handler forwards every
NoteOn), voice 0 is active yet no held note source of either domain
points at it: the second press grabbed the free voice 1 and moved the
back-pointer of note 60 there, orphaning voice 0.  After the NoteOff,
voice 0 is still active while note 60 is no longer held: the stuck
voice the specification says the invariant exists to prevent. -/
theorem c1_invariant_violated :
    (dblPress.voices 0).active = true ∧
    (∀ p ∈ allKeys,
      ¬(GetHeld dblPress p.1 p.2 = true ∧ GetOwnerVoice dblPress p.1 p.2 = 0)) ∧
    dblPress.midi_held 60 = true ∧ dblPress.midi_voice 60 = 1 ∧
    dblPress.voices 1 = ⟨true, true, 60⟩ ∧
    (dblPressRel.voices 0).active = true ∧ dblPressRel.midi_held 60 = false := by
  decide

/-- C4 fails on the code for the button domain: pressing the
out-of-range button id 6 is not a silent no-op — the held flag of
slot 6 is written, the timestamp is stamped and the global press
counter advances (in the C source this write is out of bounds of the
six-element arrays). -/
theorem c4_counterexample :
    initState.btn_held 6 = false ∧ (OnKeyPressed initState false 6).btn_held 6 = true ∧
    initState.global_press_counter = 0 ∧
    (OnKeyPressed initState false 6).global_press_counter = 1 ∧
    initState.btn_hold_ts 6 = 0 ∧ (OnKeyPressed initState false 6).btn_hold_ts 6 = 1 := by
  decide

/-- C4 amended: only note-event ids are range-checked; a press or
release whose note-event id lies outside 0..127 leaves the whole state
(held flags, timestamps, bindings, press counter) exactly unchanged. -/
theorem c4_midi_guard (s : SynthState) (id : Int)
    (h : id < 0 ∨ (kNumMidiNotes : Int) ≤ id) :
    OnKeyPressed s true id = s ∧ OnKeyReleased s true id = s := by
  have hg : (true && (decide (id < 0) || decide ((kNumMidiNotes : Int) ≤ id))) = true := by
    rcases h with h | h <;> simp [h]
  constructor
  · unfold OnKeyPressed
    rw [if_pos hg]
  · unfold OnKeyReleased
    rw [if_pos hg]

/-- Witness for C4 at the concrete out-of-range note id 200. -/
theorem c4_witness :
    ((200 : Int) < 0 ∨ (kNumMidiNotes : Int) ≤ (200 : Int)) ∧
    OnKeyPressed initState true 200 = initState ∧
    OnKeyReleased initState true 200 = initState :=
  ⟨by decide, (c4_midi_guard initState 200 (by decide)).1,
    (c4_midi_guard initState 200 (by decide)).2⟩

end Synth

namespace Synth

lemma GetHeld_SetTs (s : SynthState) (m2 : Bool) (id2 : Int) (t : Nat) (m : Bool) (i : Int) :
    GetHeld (SetTs s m2 id2 t) m i = GetHeld s m i := by
  cases m <;> simp [GetHeld]

lemma GetTs_SetHeld (s : SynthState) (m2 : Bool) (id2 : Int) (v : Bool) (m : Bool) (i : Int) :
    GetTs (SetHeld s m2 id2 v) m i = GetTs s m i := by
  cases m <;> simp [GetTs]

lemma GetHeld_SetOwnerVoice_any (s : SynthState) (m2 : Bool) (id2 vi : Int)
    (m : Bool) (i : Int) :
    GetHeld (SetOwnerVoice s m2 id2 vi) m i = GetHeld s m i := by
  cases m <;> simp [GetHeld]

lemma OnKeyPressed_counter (s : SynthState) (m : Bool) (id : Int)
    (hg : (m && (decide (id < 0) || decide ((kNumMidiNotes : Int) ≤ id))) = false) :
    (OnKeyPressed s m id).global_press_counter
      = (s.global_press_counter + 1) % UINT32_MOD := by
  unfold OnKeyPressed
  rw [if_neg (by rw [hg]; simp)]
  dsimp only
  split
  · simp
  · split
    · simp
    · simp

lemma OnKeyPressed_ts_same (s : SynthState) (m : Bool) (id : Int)
    (hg : (m && (decide (id < 0) || decide ((kNumMidiNotes : Int) ≤ id))) = false) :
    GetTs (OnKeyPressed s m id) m id = (s.global_press_counter + 1) % UINT32_MOD := by
  unfold OnKeyPressed
  rw [if_neg (by rw [hg]; simp)]
  dsimp only
  split
  · rw [GetTs_Assign, GetTs_SetTs_same]
    simp
  · split
    · rw [GetTs_Assign, GetTs_SetOwnerVoice, GetTs_SetTs_same]
      simp
    · rw [GetTs_SetTs_same]
      simp

lemma OnKeyPressed_ts_other (s : SynthState) (m : Bool) (id : Int)
    (hg : (m && (decide (id < 0) || decide ((kNumMidiNotes : Int) ≤ id))) = false)
    (m2 : Bool) (id2 : Int) (hne : ¬(m2 = m ∧ id2 = id)) :
    GetTs (OnKeyPressed s m id) m2 id2 = GetTs s m2 id2 := by
  unfold OnKeyPressed
  rw [if_neg (by rw [hg]; simp)]
  dsimp only
  split
  · rw [GetTs_Assign, GetTs_SetTs_other _ _ _ _ _ _ hne]
    rw [show ∀ (X : SynthState) (c : Nat),
      ({ X with global_press_counter := c } : SynthState).btn_hold_ts = X.btn_hold_ts
      from fun _ _ => rfl] at *
    cases m2 <;> simp [GetTs]
  · split
    · rw [GetTs_Assign, GetTs_SetOwnerVoice, GetTs_SetTs_other _ _ _ _ _ _ hne]
      cases m2 <;> simp [GetTs]
    · rw [GetTs_SetTs_other _ _ _ _ _ _ hne]
      cases m2 <;> simp [GetTs]

lemma OnKeyPressed_held (s : SynthState) (m : Bool) (id : Int)
    (hg : (m && (decide (id < 0) || decide ((kNumMidiNotes : Int) ≤ id))) = false) :
    GetHeld (OnKeyPressed s m id) m id = true := by
  unfold OnKeyPressed
  rw [if_neg (by rw [hg]; simp)]
  dsimp only
  split
  · rw [GetHeld_Assign, GetHeld_SetTs]
    rw [show ∀ (X : SynthState) (c : Nat),
      GetHeld { X with global_press_counter := c } m id = GetHeld X m id
      from fun X c => by cases m <;> rfl]
    exact GetHeld_SetHeld_same s m id true
  · split
    · rw [GetHeld_Assign, GetHeld_SetOwnerVoice_any, GetHeld_SetTs]
      rw [show ∀ (X : SynthState) (c : Nat),
        GetHeld { X with global_press_counter := c } m id = GetHeld X m id
        from fun X c => by cases m <;> rfl]
      exact GetHeld_SetHeld_same s m id true
    · rw [GetHeld_SetTs]
      rw [show ∀ (X : SynthState) (c : Nat),
        GetHeld { X with global_press_counter := c } m id = GetHeld X m id
        from fun X c => by cases m <;> rfl]
      exact GetHeld_SetHeld_same s m id true

end Synth

namespace Synth

/-- C5 amended: every in-range press (a repeat on a held source
included) re-stamps the pressed source with the freshly incremented
counter value, marks it held, leaves every other timestamp unchanged
(so the re-pressed source is newest for future stealing), and the
counter is incremented exactly once per press modulo 2^32 — strictly
increasing as long as it has not yet reached 2^32 - 1. -/
theorem c5_repress_restamps :
    ∀ (s : SynthState) (m : Bool) (id : Int),
      (m = true → 0 ≤ id ∧ id < (kNumMidiNotes : Int)) →
      (OnKeyPressed s m id).global_press_counter
          = (s.global_press_counter + 1) % UINT32_MOD ∧
      GetTs (OnKeyPressed s m id) m id = (OnKeyPressed s m id).global_press_counter ∧
      GetHeld (OnKeyPressed s m id) m id = true ∧
      (s.global_press_counter + 1 < UINT32_MOD →
        s.global_press_counter < (OnKeyPressed s m id).global_press_counter) ∧
      (∀ (m2 : Bool) (id2 : Int), ¬(m2 = m ∧ id2 = id) →
        GetTs (OnKeyPressed s m id) m2 id2 = GetTs s m2 id2) := by
  intro s m id hrange
  have hg : (m && (decide (id < 0) || decide ((kNumMidiNotes : Int) ≤ id))) = false := by
    cases m
    · rfl
    · obtain ⟨h1, h2⟩ := hrange rfl
      simp only [Bool.true_and, Bool.or_eq_false_iff, decide_eq_false_iff_not]
      omega
  have hc := OnKeyPressed_counter s m id hg
  refine ⟨hc, ?_, OnKeyPressed_held s m id hg, ?_, OnKeyPressed_ts_other s m id hg⟩
  · rw [OnKeyPressed_ts_same s m id hg, hc]
  · intro hlt
    rw [hc, Nat.mod_eq_of_lt hlt]
    omega

/-- C5 as frozen is false: the global press counter is a uint32_t, so
after 2^32 in-range presses it wraps back to zero instead of increasing
strictly — the press after the 4294967295th lowers the counter. -/
theorem c5_counterexample :
    (pressN (UINT32_MOD - 1)).global_press_counter = UINT32_MOD - 1 ∧
    (pressN UINT32_MOD).global_press_counter = 0 ∧
    (pressN UINT32_MOD).global_press_counter
      < (pressN (UINT32_MOD - 1)).global_press_counter := by
  have key : ∀ n : Nat, (pressN n).global_press_counter = n % UINT32_MOD := by
    intro n
    induction n with
    | zero => rfl
    | succ n ih =>
      have hg : (true && (decide ((60 : Int) < 0) || decide ((kNumMidiNotes : Int) ≤ 60)))
          = false := by decide
      show (OnKeyPressed (pressN n) true 60).global_press_counter = _
      rw [OnKeyPressed_counter _ _ _ hg, ih]
      simp only [UINT32_MOD]
      omega
  refine ⟨?_, ?_, ?_⟩
  · rw [key]
    simp only [UINT32_MOD]
  · rw [key]
    simp only [UINT32_MOD]
  · rw [key, key]
    simp only [UINT32_MOD]
    omega

/-- Witness for C5 at a concrete repeat press: note 60 is already held
in the two-note state, and re-pressing it advances the counter and
re-stamps note 60 with the new counter value. -/
theorem c5_witness :
    ((true = true → 0 ≤ (60 : Int) ∧ (60 : Int) < (kNumMidiNotes : Int)) ∧
      GetHeld twoHeld true 60 = true) ∧
    (OnKeyPressed twoHeld true 60).global_press_counter
        = (twoHeld.global_press_counter + 1) % UINT32_MOD ∧
    GetTs (OnKeyPressed twoHeld true 60) true 60
        = (OnKeyPressed twoHeld true 60).global_press_counter :=
  ⟨⟨by decide, by decide⟩, (c5_repress_restamps twoHeld true 60 (by decide)).1,
    (c5_repress_restamps twoHeld true 60 (by decide)).2.1⟩

end Synth

namespace Synth

lemma GetTs_counterUpd (X : SynthState) (c : Nat) (m : Bool) (i : Int) :
    GetTs { X with global_press_counter := c } m i = GetTs X m i := by
  cases m <;> rfl

lemma GetHeld_counterUpd (X : SynthState) (c : Nat) (m : Bool) (i : Int) :
    GetHeld { X with global_press_counter := c } m i = GetHeld X m i := by
  cases m <;> rfl

/-- C2: pressing an in-range source while no voice is free and the
pressed source owns no voice steals exactly the active voice whose owner
has the minimum press timestamp, ties broken by the lowest voice index:
that owner keeps its held flag but loses its back-pointer, the same
voice slot is rebound to the newly pressed source of either domain, and
no other voice slot changes. -/
theorem c2_steal_oldest :
    ∀ (s : SynthState) (m : Bool) (id : Int),
      (m = true → 0 ≤ id ∧ id < (kNumMidiNotes : Int)) →
      FindFreeVoice s = -1 →
      (∀ v ∈ voiceIdxs, ¬((s.voices v).is_midi = m ∧ (s.voices v).key_id = id)) →
      ∃ vi : Int,
        vi = FindOldestActiveVoice s ∧
        (vi = 0 ∨ vi = 1) ∧
        (s.voices vi).active = true ∧
        (∀ w ∈ voiceIdxs, (s.voices w).active = true →
          tsOf s vi < tsOf s w ∨ (tsOf s vi = tsOf s w ∧ vi ≤ w)) ∧
        GetOwnerVoice (OnKeyPressed s m id) (s.voices vi).is_midi (s.voices vi).key_id
          = -1 ∧
        GetHeld (OnKeyPressed s m id) (s.voices vi).is_midi (s.voices vi).key_id
          = GetHeld s (s.voices vi).is_midi (s.voices vi).key_id ∧
        (OnKeyPressed s m id).voices vi = ⟨true, m, id⟩ ∧
        GetOwnerVoice (OnKeyPressed s m id) m id = vi ∧
        GetHeld (OnKeyPressed s m id) m id = true ∧
        (∀ w ∈ voiceIdxs, w ≠ vi → (OnKeyPressed s m id).voices w = s.voices w) := by
  intro s m id hrange hfull hno
  have hg : (m && (decide (id < 0) || decide ((kNumMidiNotes : Int) ≤ id))) = false := by
    cases m
    · rfl
    · obtain ⟨h1, h2⟩ := hrange rfl
      simp only [Bool.true_and, Bool.or_eq_false_iff, decide_eq_false_iff_not]
      omega
  obtain ⟨hact0, hact1⟩ : (s.voices 0).active = true ∧ (s.voices 1).active = true := by
    rcases FindFreeVoice_cases s with ⟨_, h0, h1⟩ | ⟨hv, _⟩ | ⟨hv, _, _⟩
    · exact ⟨h0, h1⟩
    · rw [hv] at hfull; cases hfull
    · rw [hv] at hfull; cases hfull
  have hFOAVs : FindOldestActiveVoice s = if tsOf s 1 < tsOf s 0 then 1 else 0 := by
    rw [FindOldestActiveVoice_eq, hact0, hact1]
    simp
  -- the stamped state
  set s1 := SetHeld s m id true with hs1
  set s2 : SynthState := { s1 with
    global_press_counter := (s1.global_press_counter + 1) % UINT32_MOD } with hs2
  set s3 := SetTs s2 m id s2.global_press_counter with hs3
  have hpress : OnKeyPressed s m id =
      if 0 ≤ FindFreeVoice s3 then AssignVoiceToKey s3 (FindFreeVoice s3) m id
      else if 0 ≤ FindOldestActiveVoice s3 then
        AssignVoiceToKey
          (SetOwnerVoice s3 (s3.voices (FindOldestActiveVoice s3)).is_midi
            (s3.voices (FindOldestActiveVoice s3)).key_id (-1))
          (FindOldestActiveVoice s3) m id
      else s3 := by
    unfold OnKeyPressed
    rw [if_neg (by rw [hg]; simp)]
  have hv3 : s3.voices = s.voices := by
    rw [hs3, SetTs_voices]
    show s1.voices = s.voices
    rw [hs1, SetHeld_voices]
  have hts3 : ∀ v ∈ voiceIdxs, tsOf s3 v = tsOf s v := by
    intro v hv
    unfold tsOf
    rw [hv3, hs3, GetTs_SetTs_other _ _ _ _ _ _ (hno v hv)]
    show GetTs { s1 with
      global_press_counter := (s1.global_press_counter + 1) % UINT32_MOD } _ _ = _
    rw [GetTs_counterUpd, hs1, GetTs_SetHeld]
  have hFFV3 : FindFreeVoice s3 = -1 := by
    rw [FindFreeVoice_eq, hv3, ← FindFreeVoice_eq]
    exact hfull
  have hFOAV3 : FindOldestActiveVoice s3 = FindOldestActiveVoice s := by
    rw [FindOldestActiveVoice_eq, hv3, hts3 0 (by decide), hts3 1 (by decide),
      ← FindOldestActiveVoice_eq]
  rw [hFFV3, hFOAV3] at hpress
  rw [if_neg (by norm_num)] at hpress
  have hvi01 : FindOldestActiveVoice s = 0 ∨ FindOldestActiveVoice s = 1 := by
    rw [hFOAVs]
    split
    · right; rfl
    · left; rfl
  have hvimem : FindOldestActiveVoice s ∈ voiceIdxs := by
    rw [voiceIdxs_eq]
    rcases hvi01 with h | h <;> (rw [h]; simp)
  rw [if_pos (by rcases hvi01 with h | h <;> (rw [h]; try norm_num))] at hpress
  refine ⟨FindOldestActiveVoice s, rfl, hvi01, ?_, ?_, ?_, ?_, ?_, ?_, ?_, ?_⟩
  · rcases hvi01 with h | h <;> (rw [h]; assumption)
  · intro w hw hwact
    rw [voiceIdxs_eq] at hw
    rw [hFOAVs]
    rcases List.mem_cons.mp hw with rfl | hw'
    · split
      · left; assumption
      · right
        omega
    · rcases List.mem_cons.mp hw' with rfl | hw''
      · split
        · right
          exact ⟨rfl, le_refl _⟩
        · rename_i hnlt
          omega
      · cases hw''
  · rw [hpress, hv3, GetOwnerVoice_Assign_other _ _ _ _ _ _ (hno _ hvimem),
      GetOwnerVoice_SetOwnerVoice_same]
  · rw [hpress, hv3, GetHeld_Assign, GetHeld_SetOwnerVoice_any, hs3, GetHeld_SetTs]
    show GetHeld { s1 with
      global_press_counter := (s1.global_press_counter + 1) % UINT32_MOD } _ _ = _
    rw [GetHeld_counterUpd, hs1, GetHeld_SetHeld_other _ _ _ _ _ _ (hno _ hvimem)]
  · rw [hpress, Assign_voices, Function.update_same]
  · rw [hpress, GetOwnerVoice_Assign_same]
  · rw [hpress, GetHeld_Assign, GetHeld_SetOwnerVoice_any, hs3, GetHeld_SetTs]
    show GetHeld { s1 with
      global_press_counter := (s1.global_press_counter + 1) % UINT32_MOD } _ _ = _
    rw [GetHeld_counterUpd, hs1, GetHeld_SetHeld_same]
  · intro w hw hwne
    rw [hpress, Assign_voices, Function.update_noteq hwne, SetOwnerVoice_voices, hv3]

end Synth

namespace Synth

/-- Witness for C2: with notes 60 and 62 holding both voices, pressing
note 64 steals the oldest active voice. -/
theorem c2_witness :
    ((true = true → 0 ≤ (64 : Int) ∧ (64 : Int) < (kNumMidiNotes : Int)) ∧
      FindFreeVoice twoHeld = -1 ∧
      (∀ v ∈ voiceIdxs,
        ¬((twoHeld.voices v).is_midi = true ∧ (twoHeld.voices v).key_id = 64))) ∧
    (∃ vi : Int,
      vi = FindOldestActiveVoice twoHeld ∧
      (vi = 0 ∨ vi = 1) ∧
      (twoHeld.voices vi).active = true ∧
      (∀ w ∈ voiceIdxs, (twoHeld.voices w).active = true →
        tsOf twoHeld vi < tsOf twoHeld w ∨
          (tsOf twoHeld vi = tsOf twoHeld w ∧ vi ≤ w)) ∧
      GetOwnerVoice (OnKeyPressed twoHeld true 64) (twoHeld.voices vi).is_midi
        (twoHeld.voices vi).key_id = -1 ∧
      GetHeld (OnKeyPressed twoHeld true 64) (twoHeld.voices vi).is_midi
        (twoHeld.voices vi).key_id
        = GetHeld twoHeld (twoHeld.voices vi).is_midi (twoHeld.voices vi).key_id ∧
      (OnKeyPressed twoHeld true 64).voices vi = ⟨true, true, 64⟩ ∧
      GetOwnerVoice (OnKeyPressed twoHeld true 64) true 64 = vi ∧
      GetHeld (OnKeyPressed twoHeld true 64) true 64 = true ∧
      (∀ w ∈ voiceIdxs, w ≠ vi →
        (OnKeyPressed twoHeld true 64).voices w = twoHeld.voices w)) :=
  ⟨⟨by decide, by decide, by decide⟩,
    c2_steal_oldest twoHeld true 64 (by decide) (by decide) (by decide)⟩

end Synth

namespace Synth

/-- C7: each output sample is the sum of both oscillator layers of
every voice slot times 1 / (2 * kNumVoices), written identically to the
left and right channels; with every layer of every voice producing +1,
the pre-scale sum is 2 * kNumVoices = 4 and the scaled output is
exactly 1. -/
theorem c7_render_scaling :
    (∀ (p1 p2 : Nat → Int → ℚ) (i : Nat),
      (renderOuts p1 p2 i).1 = (renderOuts p1 p2 i).2 ∧
      (renderOuts p1 p2 i).1
        = (p1 i 0 + p2 i 0 + p1 i 1 + p2 i 1) * (1 / (2 * (kNumVoices : ℚ)))) ∧
    (mixGo (fun _ => 1) (fun _ => 1) voiceIdxs 0 = 2 * (kNumVoices : ℚ) ∧
      renderSample (fun _ => 1) (fun _ => 1) = 1) := by
  constructor
  · intro p1 p2 i
    refine ⟨rfl, ?_⟩
    show renderSample (p1 i) (p2 i) = _
    rw [renderSample, voiceIdxs_eq]
    simp only [mixGo, mix_scale]
    push_cast [kNumVoices]
    ring
  · constructor
    · rw [voiceIdxs_eq]
      simp only [mixGo]
      norm_num [kNumVoices]
    · rw [renderSample, voiceIdxs_eq]
      simp only [mixGo]
      norm_num [mix_scale, kNumVoices]

end Synth

namespace Synth

lemma advanceGo_eval (o : Int → Osc) :
    advanceGo voiceIdxs o =
      Function.update (Function.update o 0 (oscProcess (o 0))) 1 (oscProcess (o 1)) := by
  rw [voiceIdxs_eq]
  simp only [advanceGo]
  rw [Function.update_noteq (by omega : (1 : Int) ≠ 0)]

lemma advanceGo_phase (o : Int → Osc) (v : Int) (hv : v ∈ voiceIdxs) :
    (advanceGo voiceIdxs o v).phase = (o v).phase + 1 := by
  rw [advanceGo_eval]
  rw [voiceIdxs_eq] at hv
  rcases List.mem_cons.mp hv with rfl | hv'
  · rw [Function.update_noteq (by omega : (0 : Int) ≠ 1), Function.update_same]
    rfl
  · rcases List.mem_cons.mp hv' with rfl | h
    · rw [Function.update_same]
      rfl
    · cases h

lemma advanceGo_amp (o : Int → Osc) (v : Int) (hv : v ∈ voiceIdxs) :
    (advanceGo voiceIdxs o v).amp = (o v).amp := by
  rw [advanceGo_eval]
  rw [voiceIdxs_eq] at hv
  rcases List.mem_cons.mp hv with rfl | hv'
  · rw [Function.update_noteq (by omega : (0 : Int) ≠ 1), Function.update_same]
    rfl
  · rcases List.mem_cons.mp hv' with rfl | h
    · rw [Function.update_same]
      rfl
    · cases h

lemma sampleLoop_phase (n : Nat) : ∀ (o1 o2 : Int → Osc) (v : Int), v ∈ voiceIdxs →
    ((sampleLoop n o1 o2).1 v).phase = (o1 v).phase + n ∧
    ((sampleLoop n o1 o2).2 v).phase = (o2 v).phase + n := by
  induction n with
  | zero => intro o1 o2 v _; exact ⟨rfl, rfl⟩
  | succ n ih =>
    intro o1 o2 v hv
    have hrec : sampleLoop (n + 1) o1 o2
        = sampleLoop n (advanceGo voiceIdxs o1) (advanceGo voiceIdxs o2) := rfl
    rw [hrec]
    obtain ⟨h1, h2⟩ := ih (advanceGo voiceIdxs o1) (advanceGo voiceIdxs o2) v hv
    rw [h1, h2, advanceGo_phase _ _ hv, advanceGo_phase _ _ hv]
    omega

lemma sampleLoop_amp (n : Nat) : ∀ (o1 o2 : Int → Osc) (v : Int), v ∈ voiceIdxs →
    ((sampleLoop n o1 o2).1 v).amp = (o1 v).amp ∧
    ((sampleLoop n o1 o2).2 v).amp = (o2 v).amp := by
  induction n with
  | zero => intro o1 o2 v _; exact ⟨rfl, rfl⟩
  | succ n ih =>
    intro o1 o2 v hv
    have hrec : sampleLoop (n + 1) o1 o2
        = sampleLoop n (advanceGo voiceIdxs o1) (advanceGo voiceIdxs o2) := rfl
    rw [hrec]
    obtain ⟨h1, h2⟩ := ih (advanceGo voiceIdxs o1) (advanceGo voiceIdxs o2) v hv
    rw [h1, h2, advanceGo_amp _ _ hv, advanceGo_amp _ _ hv]
    exact ⟨rfl, rfl⟩

lemma paramGo_phase (bi : BlockIn) (L : List Int) : ∀ (o1 o2 : Int → Osc) (v : Int),
    ((paramGo bi L o1 o2).1 v).phase = (o1 v).phase ∧
    ((paramGo bi L o1 o2).2 v).phase = (o2 v).phase := by
  induction L with
  | nil => intro o1 o2 v; exact ⟨rfl, rfl⟩
  | cons w rest ih =>
    intro o1 o2 v
    unfold paramGo
    split
    · obtain ⟨h1, h2⟩ := ih
        (Function.update o1 w
          (oscSetPw (oscSetAmp (oscSetFreq (o1 w) (bi.freqOf w)) bi.vol1) bi.pw1))
        (Function.update o2 w
          (oscSetPw (oscSetAmp (oscSetFreq (o2 w) (bi.freqOf w * bi.detuneFactor)) bi.vol2)
            bi.pw2)) v
      rw [h1, h2]
      constructor
      · by_cases hvw : v = w
        · subst hvw
          rw [Function.update_same]
          rfl
        · rw [Function.update_noteq hvw]
      · by_cases hvw : v = w
        · subst hvw
          rw [Function.update_same]
          rfl
        · rw [Function.update_noteq hvw]
    · obtain ⟨h1, h2⟩ := ih
        (Function.update o1 w (oscSetAmp (o1 w) 0))
        (Function.update o2 w (oscSetAmp (o2 w) 0)) v
      rw [h1, h2]
      constructor
      · by_cases hvw : v = w
        · subst hvw
          rw [Function.update_same]
          rfl
        · rw [Function.update_noteq hvw]
      · by_cases hvw : v = w
        · subst hvw
          rw [Function.update_same]
          rfl
        · rw [Function.update_noteq hvw]

lemma paramGo_not_mem (bi : BlockIn) (L : List Int) : ∀ (o1 o2 : Int → Osc) (v : Int),
    v ∉ L →
    (paramGo bi L o1 o2).1 v = o1 v ∧ (paramGo bi L o1 o2).2 v = o2 v := by
  induction L with
  | nil => intro o1 o2 v _; exact ⟨rfl, rfl⟩
  | cons w rest ih =>
    intro o1 o2 v hv
    have hvw : v ≠ w := fun h => hv (h ▸ List.mem_cons_self _ _)
    have hvrest : v ∉ rest := fun h => hv (List.mem_cons_of_mem _ h)
    unfold paramGo
    split
    · obtain ⟨h1, h2⟩ := ih _ _ v hvrest
      rw [h1, h2, Function.update_noteq hvw, Function.update_noteq hvw]
      exact ⟨rfl, rfl⟩
    · obtain ⟨h1, h2⟩ := ih _ _ v hvrest
      rw [h1, h2, Function.update_noteq hvw, Function.update_noteq hvw]
      exact ⟨rfl, rfl⟩

lemma paramGo_amp_zero (bi : BlockIn) (L : List Int) : ∀ (o1 o2 : Int → Osc) (v : Int),
    v ∈ L → L.Nodup → bi.active v = false →
    ((paramGo bi L o1 o2).1 v).amp = 0 ∧ ((paramGo bi L o1 o2).2 v).amp = 0 := by
  induction L with
  | nil => intro o1 o2 v hv _ _; cases hv
  | cons w rest ih =>
    intro o1 o2 v hv hnd hin
    obtain ⟨hwrest, hndrest⟩ := List.nodup_cons.mp hnd
    rcases List.mem_cons.mp hv with rfl | hv'
    · unfold paramGo
      rw [if_neg (by rw [hin]; simp)]
      obtain ⟨h1, h2⟩ := paramGo_not_mem bi rest
        (Function.update o1 v (oscSetAmp (o1 v) 0))
        (Function.update o2 v (oscSetAmp (o2 v) 0)) v hwrest
      rw [h1, h2, Function.update_same, Function.update_same]
      exact ⟨rfl, rfl⟩
    · unfold paramGo
      split
      · exact ih _ _ v hv' hndrest hin
      · exact ih _ _ v hv' hndrest hin

/-- C8: in every block, an inactive voice slot has both oscillator
layers forced to zero amplitude, yet both layers of every slot are
still processed once per sample so phase advances by exactly the block
size for every voice; across any run of blocks phase accumulates the
total sample count and is never reset. -/
theorem c8_inactive_zeroed_phase_advances :
    ∀ (bi : BlockIn) (o1 o2 : Int → Osc) (v : Int), v ∈ voiceIdxs →
      (bi.active v = false →
        ((audioBlockOsc bi o1 o2).1 v).amp = 0 ∧
        ((audioBlockOsc bi o1 o2).2 v).amp = 0) ∧
      ((audioBlockOsc bi o1 o2).1 v).phase = (o1 v).phase + bi.size ∧
      ((audioBlockOsc bi o1 o2).2 v).phase = (o2 v).phase + bi.size ∧
      ∀ bs : List BlockIn,
        ((runBlocks bs o1 o2).1 v).phase = (o1 v).phase + (bs.map BlockIn.size).sum ∧
        ((runBlocks bs o1 o2).2 v).phase = (o2 v).phase + (bs.map BlockIn.size).sum := by
  have hblock : ∀ (bi : BlockIn) (o1 o2 : Int → Osc) (v : Int), v ∈ voiceIdxs →
      ((audioBlockOsc bi o1 o2).1 v).phase = (o1 v).phase + bi.size ∧
      ((audioBlockOsc bi o1 o2).2 v).phase = (o2 v).phase + bi.size := by
    intro bi o1 o2 v hv
    unfold audioBlockOsc
    obtain ⟨h1, h2⟩ := sampleLoop_phase bi.size (paramGo bi voiceIdxs o1 o2).1
      (paramGo bi voiceIdxs o1 o2).2 v hv
    obtain ⟨h3, h4⟩ := paramGo_phase bi voiceIdxs o1 o2 v
    rw [h1, h2, h3, h4]
    exact ⟨rfl, rfl⟩
  intro bi o1 o2 v hv
  refine ⟨?_, (hblock bi o1 o2 v hv).1, (hblock bi o1 o2 v hv).2, ?_⟩
  · intro hin
    unfold audioBlockOsc
    obtain ⟨h1, h2⟩ := sampleLoop_amp bi.size (paramGo bi voiceIdxs o1 o2).1
      (paramGo bi voiceIdxs o1 o2).2 v hv
    obtain ⟨h3, h4⟩ := paramGo_amp_zero bi voiceIdxs o1 o2 v hv (by decide) hin
    rw [h1, h2, h3, h4]
    exact ⟨rfl, rfl⟩
  · intro bs
    induction bs generalizing o1 o2 with
    | nil => exact ⟨by simp [runBlocks], by simp [runBlocks]⟩
    | cons b rest ih =>
      have hrec : runBlocks (b :: rest) o1 o2
          = runBlocks rest (audioBlockOsc b o1 o2).1 (audioBlockOsc b o1 o2).2 := rfl
      rw [hrec]
      obtain ⟨h1, h2⟩ := ih (audioBlockOsc b o1 o2).1 (audioBlockOsc b o1 o2).2
      obtain ⟨h3, h4⟩ := hblock b o1 o2 v hv
      rw [h1, h2, h3, h4]
      constructor
      · simp only [List.map_cons, List.sum_cons]
        omega
      · simp only [List.map_cons, List.sum_cons]
        omega

/-- Witness for C8 at a concrete inactive block: with no voice active,
after one block of size 4 both layers of voice 0 sit at amplitude 0 and
their phase advanced by 4. -/
theorem c8_witness :
    ((0 : Int) ∈ voiceIdxs ∧
      (⟨fun _ => false, fun _ => 440, 1, 1, 1, 1, 1, 4⟩ : BlockIn).active 0 = false) ∧
    (((audioBlockOsc ⟨fun _ => false, fun _ => 440, 1, 1, 1, 1, 1, 4⟩
        (fun _ => ⟨0, 0, 0, 0⟩) (fun _ => ⟨0, 0, 0, 0⟩)).1 0).amp = 0 ∧
      ((audioBlockOsc ⟨fun _ => false, fun _ => 440, 1, 1, 1, 1, 1, 4⟩
        (fun _ => ⟨0, 0, 0, 0⟩) (fun _ => ⟨0, 0, 0, 0⟩)).2 0).amp = 0) ∧
    ((audioBlockOsc ⟨fun _ => false, fun _ => 440, 1, 1, 1, 1, 1, 4⟩
        (fun _ => ⟨0, 0, 0, 0⟩) (fun _ => ⟨0, 0, 0, 0⟩)).1 0).phase
      = ((fun _ => (⟨0, 0, 0, 0⟩ : Osc)) (0 : Int)).phase + 4 :=
  ⟨⟨by decide, rfl⟩,
    (c8_inactive_zeroed_phase_advances ⟨fun _ => false, fun _ => 440, 1, 1, 1, 1, 1, 4⟩
      (fun _ => ⟨0, 0, 0, 0⟩) (fun _ => ⟨0, 0, 0, 0⟩) 0 (by decide)).1 rfl,
    (c8_inactive_zeroed_phase_advances ⟨fun _ => false, fun _ => 440, 1, 1, 1, 1, 1, 4⟩
      (fun _ => ⟨0, 0, 0, 0⟩) (fun _ => ⟨0, 0, 0, 0⟩) 0 (by decide)).2.1⟩

end Synth

namespace Synth

lemma UpdateWaveform_cw (s : FGState) :
    (UpdateWaveform s).currentWaveform = (s.currentWaveform + 1) % 3 := rfl

lemma UpdateWaveform_wf (s : FGState) :
    (UpdateWaveform s).waveform = wmap ((s.currentWaveform + 1) % 3) := by
  have h0 : 0 ≤ (s.currentWaveform + 1) % 3 := Int.emod_nonneg _ (by norm_num)
  have h3 : (s.currentWaveform + 1) % 3 < 3 := Int.emod_lt_of_pos _ (by norm_num)
  have hc : (s.currentWaveform + 1) % 3 = 0 ∨ (s.currentWaveform + 1) % 3 = 1 ∨
      (s.currentWaveform + 1) % 3 = 2 := by omega
  unfold UpdateWaveform wmap
  dsimp only
  rcases hc with h | h | h <;> (rw [h]; norm_num)

/-- C10: in the function generator, a poll with no rising edge (button
not pressed, or still held) changes nothing but the latch; a rising
edge applies UpdateWaveform; UpdateWaveform advances the shared
selection by one modulo 3 and sets the waveform of the new selection;
three consecutive updates return the selection (and a consistent
waveform) to its previous value; and the cycle order is square, saw,
triangle. -/
theorem c10_waveform_cycle :
    (∀ (s : FGState) (pr : Bool), (pr = true → s.lastButtonState = true) →
        pollStep s pr = { s with lastButtonState := pr }) ∧
    (∀ s : FGState, s.lastButtonState = false →
        pollStep s true = { UpdateWaveform s with lastButtonState := true }) ∧
    (∀ s : FGState,
        (UpdateWaveform s).currentWaveform = (s.currentWaveform + 1) % 3 ∧
        (UpdateWaveform s).waveform = wmap ((s.currentWaveform + 1) % 3)) ∧
    (∀ s : FGState, 0 ≤ s.currentWaveform → s.currentWaveform < 3 →
        (UpdateWaveform (UpdateWaveform (UpdateWaveform s))).currentWaveform
          = s.currentWaveform ∧
        (s.waveform = wmap s.currentWaveform →
          (UpdateWaveform (UpdateWaveform (UpdateWaveform s))).waveform = s.waveform)) ∧
    (wmap 0 = Wave.square ∧ wmap 1 = Wave.saw ∧ wmap 2 = Wave.tri) := by
  refine ⟨?_, ?_, fun s => ⟨UpdateWaveform_cw s, UpdateWaveform_wf s⟩, ?_, by decide⟩
  · intro s pr h
    unfold pollStep
    cases pr
    · simp
    · rw [h rfl]
      simp
  · intro s h
    unfold pollStep
    rw [h]
    simp
  · intro s h0 h3
    have harg : (((s.currentWaveform + 1) % 3 + 1) % 3 + 1) % 3 = s.currentWaveform := by
      omega
    constructor
    · rw [UpdateWaveform_cw, UpdateWaveform_cw, UpdateWaveform_cw, harg]
    · intro hwf
      rw [UpdateWaveform_wf, UpdateWaveform_cw, UpdateWaveform_cw, harg, hwf]

/-- Witness for C10 at the startup state of the function generator. -/
theorem c10_witness :
    ((false = true → initFG.lastButtonState = true) ∧
      pollStep initFG false = { initFG with lastButtonState := false }) ∧
    (initFG.lastButtonState = false ∧
      pollStep initFG true = { UpdateWaveform initFG with lastButtonState := true }) ∧
    (0 ≤ initFG.currentWaveform ∧ initFG.currentWaveform < 3 ∧
      (UpdateWaveform (UpdateWaveform (UpdateWaveform initFG))).currentWaveform
        = initFG.currentWaveform) :=
  ⟨⟨by decide, c10_waveform_cycle.1 initFG false (by decide)⟩,
   ⟨by decide, c10_waveform_cycle.2.1 initFG (by decide)⟩,
   ⟨by decide, by decide,
     (c10_waveform_cycle.2.2.2.1 initFG (by decide) (by decide)).1⟩⟩

end Synth
